import Mathlib

/-!
# ulid-cpp: a shallow embedding of `ulid.h` and its codec properties

The identifier type `ULID` of the source is `__uint128_t`.  It is embedded as a
natural number below `2 ^ 128`; every operation of the source that can leave
that range (a left shift, a decrement) is reduced modulo `2 ^ 128` here.
Bytes (`uint8_t`) are natural numbers below `256`, a C++ `char` is a `Char`,
a `std::string` / `std::string_view` is a `List Char`.
-/

namespace ulid

/-! ## Machine arithmetic -/

/-- The constant `STR_SIZE` of the source. -/
def STR_SIZE : Nat := 26

/-- The constant `BIN_SIZE` of the source. -/
def BIN_SIZE : Nat := 16

/-- Conversion `static_cast<uint8_t>(n)` of an unsigned value. -/
def u8 (n : Nat) : Nat := n % 256

/-- Conversion `static_cast<uint8_t>(z)` of a signed 64-bit value: the low
eight bits of its two's complement representation. -/
def u8OfInt (z : Int) : Nat := (z % 256).toNat

/-- Left shift `x << k` on `__uint128_t`: bits moved past bit 127 are lost. -/
def shl128 (x k : Nat) : Nat := (x <<< k) % 2 ^ 128

/-- Decrement `x--` on `__uint128_t`. -/
def pred128 (x : Nat) : Nat := (x + (2 ^ 128 - 1)) % 2 ^ 128

/-- Failures of the embedded operations. -/
inductive Failure where
  /-- An `assert` of the source does not hold. -/
  | assertion
  /-- A read of a fixed-size table at an index outside the table. -/
  | outOfRange
  /-- The exception `std::runtime_error` thrown by `EncodeEntropyRand`. -/
  | runtimeError
deriving DecidableEq, Repr

/-! ## Encoding the fields -/

/-- The source's `EncodeTime`; `timestamp` is the `int64_t` count of
milliseconds that the first two lines of the source take from the time point.
The shift `timestamp >> k` of a signed value is the arithmetic one. -/
def EncodeTime (timestamp : Int) (ulid : Nat) : Nat :=
  let t := u8OfInt (timestamp >>> (40 : Nat))
  let t := shl128 t 8
  let t := t ||| u8OfInt (timestamp >>> (32 : Nat))
  let t := shl128 t 8
  let t := t ||| u8OfInt (timestamp >>> (24 : Nat))
  let t := shl128 t 8
  let t := t ||| u8OfInt (timestamp >>> (16 : Nat))
  let t := shl128 t 8
  let t := t ||| u8OfInt (timestamp >>> (8 : Nat))
  let t := shl128 t 8
  let t := t ||| u8OfInt timestamp
  let t := shl128 t 80
  let mask := 1
  let mask := shl128 mask 80
  let mask := pred128 mask
  t ||| (ulid &&& mask)

/-- The source's `EncodeEntropy`.  The callback `rng` of type
`std::function<uint8_t()>` is embedded by the sequence of its results:
`rng k` is what its call number `k` (from 0) returns, converted to `uint8_t`
by the callback's return type. -/
def EncodeEntropy (rng : Nat → Nat) (ulid : Nat) : Nat :=
  let ulid := shl128 (ulid >>> 80) 80
  let e := u8 (rng 0)
  let e := shl128 e 8
  let e := e ||| u8 (rng 1)
  let e := shl128 e 8
  let e := e ||| u8 (rng 2)
  let e := shl128 e 8
  let e := e ||| u8 (rng 3)
  let e := shl128 e 8
  let e := e ||| u8 (rng 4)
  let e := shl128 e 8
  let e := e ||| u8 (rng 5)
  let e := shl128 e 8
  let e := e ||| u8 (rng 6)
  let e := shl128 e 8
  let e := e ||| u8 (rng 7)
  let e := shl128 e 8
  let e := e ||| u8 (rng 8)
  let e := shl128 e 8
  let e := e ||| u8 (rng 9)
  ulid ||| e

/-- The source's `Encode`: `EncodeTime`, then `EncodeEntropy`. -/
def Encode (timestamp : Int) (rng : Nat → Nat) (ulid : Nat) : Nat :=
  let ulid := EncodeTime timestamp ulid
  EncodeEntropy rng ulid

/-- The source's `Create`: `Encode` on an identifier initialised to zero. -/
def Create (timestamp : Int) (rng : Nat → Nat) : Nat :=
  let ulid := 0
  Encode timestamp rng ulid

/-! ## Text form -/

/-- The source's `Encoding`: a span of 33 characters, the 32 symbols of
Crockford's Base32 followed by the terminating NUL of the string literal. -/
def Encoding : List Char :=
  "0123456789ABCDEFGHJKMNPQRSTVWXYZ".toList ++ [Char.ofNat 0]

/-- Read `Encoding[i]`. -/
def encodingAt (i : Nat) : Char := Encoding.getD i (Char.ofNat 0)

/-- The 26 index expressions of the source's `MarshalTo`, in the order of the
assignments `dst[0]`, ..., `dst[25]`. -/
def MarshalIndices (ulid : Nat) : List Nat :=
  [ (u8 (ulid >>> 120) &&& 224) >>> 5,
    u8 (ulid >>> 120) &&& 31,
    (u8 (ulid >>> 112) &&& 248) >>> 3,
    ((u8 (ulid >>> 112) &&& 7) <<< 2) ||| ((u8 (ulid >>> 104) &&& 192) >>> 6),
    (u8 (ulid >>> 104) &&& 62) >>> 1,
    ((u8 (ulid >>> 104) &&& 1) <<< 4) ||| ((u8 (ulid >>> 96) &&& 240) >>> 4),
    ((u8 (ulid >>> 96) &&& 15) <<< 1) ||| ((u8 (ulid >>> 88) &&& 128) >>> 7),
    (u8 (ulid >>> 88) &&& 124) >>> 2,
    ((u8 (ulid >>> 88) &&& 3) <<< 3) ||| ((u8 (ulid >>> 80) &&& 224) >>> 5),
    u8 (ulid >>> 80) &&& 31,
    (u8 (ulid >>> 72) &&& 248) >>> 3,
    ((u8 (ulid >>> 72) &&& 7) <<< 2) ||| ((u8 (ulid >>> 64) &&& 192) >>> 6),
    (u8 (ulid >>> 64) &&& 62) >>> 1,
    ((u8 (ulid >>> 64) &&& 1) <<< 4) ||| ((u8 (ulid >>> 56) &&& 240) >>> 4),
    ((u8 (ulid >>> 56) &&& 15) <<< 1) ||| ((u8 (ulid >>> 48) &&& 128) >>> 7),
    (u8 (ulid >>> 48) &&& 124) >>> 2,
    ((u8 (ulid >>> 48) &&& 3) <<< 3) ||| ((u8 (ulid >>> 40) &&& 224) >>> 5),
    u8 (ulid >>> 40) &&& 31,
    (u8 (ulid >>> 32) &&& 248) >>> 3,
    ((u8 (ulid >>> 32) &&& 7) <<< 2) ||| ((u8 (ulid >>> 24) &&& 192) >>> 6),
    (u8 (ulid >>> 24) &&& 62) >>> 1,
    ((u8 (ulid >>> 24) &&& 1) <<< 4) ||| ((u8 (ulid >>> 16) &&& 240) >>> 4),
    ((u8 (ulid >>> 16) &&& 15) <<< 1) ||| ((u8 (ulid >>> 8) &&& 128) >>> 7),
    (u8 (ulid >>> 8) &&& 124) >>> 2,
    ((u8 (ulid >>> 8) &&& 3) <<< 3) ||| ((u8 ulid &&& 224) >>> 5),
    u8 ulid &&& 31 ]

/-- The source's `MarshalTo`: `dst[k] = Encoding[index k]` for the 26
positions; the result is the content of `dst`. -/
def MarshalTo (ulid : Nat) : List Char :=
  (MarshalIndices ulid).map encodingAt

/-- The source's `Marshal`: the 26 characters written by `MarshalTo`. -/
def Marshal (ulid : Nat) : List Char :=
  MarshalTo ulid

/-- The source's table `dec`, 256 entries. -/
def dec : List Nat :=
  [ 0xFF, 0xFF, 0xFF, 0xFF, 0xFF, 0xFF, 0xFF, 0xFF, 0xFF, 0xFF, 0xFF, 0xFF, 0xFF, 0xFF, 0xFF, 0xFF,
    0xFF, 0xFF, 0xFF, 0xFF, 0xFF, 0xFF, 0xFF, 0xFF, 0xFF, 0xFF, 0xFF, 0xFF, 0xFF, 0xFF, 0xFF, 0xFF,
    0xFF, 0xFF, 0xFF, 0xFF, 0xFF, 0xFF, 0xFF, 0xFF, 0xFF, 0xFF, 0xFF, 0xFF, 0xFF, 0xFF, 0xFF, 0xFF,
    0x00, 0x01, 0x02, 0x03, 0x04, 0x05, 0x06, 0x07,
    0x08, 0x09, 0xFF, 0xFF, 0xFF, 0xFF, 0xFF, 0xFF,
    0xFF, 0x0A, 0x0B, 0x0C, 0x0D, 0x0E, 0x0F, 0x10,
    0x11, 0xFF, 0x12, 0x13, 0xFF, 0x14, 0x15, 0xFF,
    0x16, 0x17, 0x18, 0x19, 0x1A, 0xFF, 0x1B, 0x1C,
    0x1D, 0x1E, 0x1F, 0xFF, 0xFF, 0xFF, 0xFF, 0xFF,
    0xFF, 0xFF, 0xFF, 0xFF, 0xFF, 0xFF, 0xFF, 0xFF, 0xFF, 0xFF, 0xFF, 0xFF, 0xFF, 0xFF, 0xFF, 0xFF,
    0xFF, 0xFF, 0xFF, 0xFF, 0xFF, 0xFF, 0xFF, 0xFF, 0xFF, 0xFF, 0xFF, 0xFF, 0xFF, 0xFF, 0xFF, 0xFF,
    0xFF, 0xFF, 0xFF, 0xFF, 0xFF, 0xFF, 0xFF, 0xFF, 0xFF, 0xFF, 0xFF, 0xFF, 0xFF, 0xFF, 0xFF, 0xFF,
    0xFF, 0xFF, 0xFF, 0xFF, 0xFF, 0xFF, 0xFF, 0xFF, 0xFF, 0xFF, 0xFF, 0xFF, 0xFF, 0xFF, 0xFF, 0xFF,
    0xFF, 0xFF, 0xFF, 0xFF, 0xFF, 0xFF, 0xFF, 0xFF, 0xFF, 0xFF, 0xFF, 0xFF, 0xFF, 0xFF, 0xFF, 0xFF,
    0xFF, 0xFF, 0xFF, 0xFF, 0xFF, 0xFF, 0xFF, 0xFF, 0xFF, 0xFF, 0xFF, 0xFF, 0xFF, 0xFF, 0xFF, 0xFF,
    0xFF, 0xFF, 0xFF, 0xFF, 0xFF, 0xFF, 0xFF, 0xFF, 0xFF, 0xFF, 0xFF, 0xFF, 0xFF, 0xFF, 0xFF, 0xFF,
    0xFF, 0xFF, 0xFF, 0xFF, 0xFF, 0xFF, 0xFF, 0xFF, 0xFF, 0xFF, 0xFF, 0xFF, 0xFF, 0xFF, 0xFF, 0xFF,
    0xFF, 0xFF, 0xFF, 0xFF, 0xFF, 0xFF, 0xFF, 0xFF, 0xFF, 0xFF, 0xFF, 0xFF, 0xFF, 0xFF, 0xFF, 0xFF,
    0xFF, 0xFF, 0xFF, 0xFF, 0xFF, 0xFF, 0xFF, 0xFF, 0xFF, 0xFF, 0xFF, 0xFF, 0xFF, 0xFF, 0xFF, 0xFF ]

/-- Conversion `int(c)` of a `char`.  Whether plain `char` is signed is left to
the platform by the language; `signedChar` says which one holds.  On a platform
with signed `char` the bytes `0x80`..`0xFF` are the negative values. -/
def charToInt (signedChar : Bool) (c : Char) : Int :=
  if signedChar && decide (128 ≤ c.toNat) then (c.toNat : Int) - 256 else (c.toNat : Int)

/-- Read `dec[i]` for an `int` index: outside `0..255` the read leaves the
table. -/
def decAt (i : Int) : Except Failure Nat :=
  if 0 ≤ i ∧ i < 256 then .ok (dec.getD i.toNat 0xFF) else .error Failure.outOfRange

/-- The expression `dec[int(str[k])]` of the source's `UnmarshalFrom`; the
value is an `int` after integral promotion. -/
def decChar (signedChar : Bool) (str : List Char) (k : Nat) : Except Failure Nat :=
  decAt (charToInt signedChar (str.getD k (Char.ofNat 0)))

/-- The source's `UnmarshalFrom`.  The identifier passed by reference is
overwritten by the first assignment, so only the result is kept.  The `assert`
on the size is a failure when it does not hold.  The shifts of table values
are `int` arithmetic (no truncation to eight bits); the accumulator is a
`__uint128_t`. -/
def UnmarshalFrom (signedChar : Bool) (str : List Char) : Except Failure Nat := do
  if str.length ≠ STR_SIZE then throw Failure.assertion
  let d := decChar signedChar str
  let ulid := ((← d 0) <<< 5) ||| (← d 1)
  let ulid := shl128 ulid 8
  let ulid := ulid ||| (((← d 2) <<< 3) ||| ((← d 3) >>> 2))
  let ulid := shl128 ulid 8
  let ulid := ulid ||| (((← d 3) <<< 6) ||| ((← d 4) <<< 1) ||| ((← d 5) >>> 4))
  let ulid := shl128 ulid 8
  let ulid := ulid ||| (((← d 5) <<< 4) ||| ((← d 6) >>> 1))
  let ulid := shl128 ulid 8
  let ulid := ulid ||| (((← d 6) <<< 7) ||| ((← d 7) <<< 2) ||| ((← d 8) >>> 3))
  let ulid := shl128 ulid 8
  let ulid := ulid ||| (((← d 8) <<< 5) ||| (← d 9))
  let ulid := shl128 ulid 8
  let ulid := ulid ||| (((← d 10) <<< 3) ||| ((← d 11) >>> 2))
  let ulid := shl128 ulid 8
  let ulid := ulid ||| (((← d 11) <<< 6) ||| ((← d 12) <<< 1) ||| ((← d 13) >>> 4))
  let ulid := shl128 ulid 8
  let ulid := ulid ||| (((← d 13) <<< 4) ||| ((← d 14) >>> 1))
  let ulid := shl128 ulid 8
  let ulid := ulid ||| (((← d 14) <<< 7) ||| ((← d 15) <<< 2) ||| ((← d 16) >>> 3))
  let ulid := shl128 ulid 8
  let ulid := ulid ||| (((← d 16) <<< 5) ||| (← d 17))
  let ulid := shl128 ulid 8
  let ulid := ulid ||| (((← d 18) <<< 3) ||| ((← d 19) >>> 2))
  let ulid := shl128 ulid 8
  let ulid := ulid ||| (((← d 19) <<< 6) ||| ((← d 20) <<< 1) ||| ((← d 21) >>> 4))
  let ulid := shl128 ulid 8
  let ulid := ulid ||| (((← d 21) <<< 4) ||| ((← d 22) >>> 1))
  let ulid := shl128 ulid 8
  let ulid := ulid ||| (((← d 22) <<< 7) ||| ((← d 23) <<< 2) ||| ((← d 24) >>> 3))
  let ulid := shl128 ulid 8
  let ulid := ulid ||| (((← d 24) <<< 5) ||| (← d 25))
  return ulid

/-- The source's `Unmarshal`: `UnmarshalFrom` into a fresh identifier. -/
def Unmarshal (signedChar : Bool) (str : List Char) : Except Failure Nat :=
  UnmarshalFrom signedChar str

/-- Read `dec[i]` in a build without bounds checking (`std::array` indexing
checks nothing): inside the table the entry is read; outside it the read
returns the `uint8_t` that the memory holds at that offset from the table,
`mem i`, which the program does not determine. -/
def decAtUnchecked (mem : Int → Nat) (i : Int) : Nat :=
  if 0 ≤ i ∧ i < 256 then dec.getD i.toNat 0xFF else u8 (mem i)

/-- The expression `dec[int(str[k])]` in a build without bounds checking. -/
def decCharUnchecked (mem : Int → Nat) (signedChar : Bool) (str : List Char) (k : Nat) : Nat :=
  decAtUnchecked mem (charToInt signedChar (str.getD k (Char.ofNat 0)))

/-- The source's `UnmarshalFrom` as a build without bounds checking runs it:
the same statements as `UnmarshalFrom`, every read of `dec` returning a byte
(`decAtUnchecked`), so that only the `assert` on the size can fail. -/
def UnmarshalFromUnchecked (mem : Int → Nat) (signedChar : Bool) (str : List Char) :
    Except Failure Nat :=
  if str.length ≠ STR_SIZE then .error Failure.assertion
  else
    let d := decCharUnchecked mem signedChar str
    let ulid := (d 0 <<< 5) ||| d 1
    let ulid := shl128 ulid 8
    let ulid := ulid ||| ((d 2 <<< 3) ||| (d 3 >>> 2))
    let ulid := shl128 ulid 8
    let ulid := ulid ||| ((d 3 <<< 6) ||| (d 4 <<< 1) ||| (d 5 >>> 4))
    let ulid := shl128 ulid 8
    let ulid := ulid ||| ((d 5 <<< 4) ||| (d 6 >>> 1))
    let ulid := shl128 ulid 8
    let ulid := ulid ||| ((d 6 <<< 7) ||| (d 7 <<< 2) ||| (d 8 >>> 3))
    let ulid := shl128 ulid 8
    let ulid := ulid ||| ((d 8 <<< 5) ||| d 9)
    let ulid := shl128 ulid 8
    let ulid := ulid ||| ((d 10 <<< 3) ||| (d 11 >>> 2))
    let ulid := shl128 ulid 8
    let ulid := ulid ||| ((d 11 <<< 6) ||| (d 12 <<< 1) ||| (d 13 >>> 4))
    let ulid := shl128 ulid 8
    let ulid := ulid ||| ((d 13 <<< 4) ||| (d 14 >>> 1))
    let ulid := shl128 ulid 8
    let ulid := ulid ||| ((d 14 <<< 7) ||| (d 15 <<< 2) ||| (d 16 >>> 3))
    let ulid := shl128 ulid 8
    let ulid := ulid ||| ((d 16 <<< 5) ||| d 17)
    let ulid := shl128 ulid 8
    let ulid := ulid ||| ((d 18 <<< 3) ||| (d 19 >>> 2))
    let ulid := shl128 ulid 8
    let ulid := ulid ||| ((d 19 <<< 6) ||| (d 20 <<< 1) ||| (d 21 >>> 4))
    let ulid := shl128 ulid 8
    let ulid := ulid ||| ((d 21 <<< 4) ||| (d 22 >>> 1))
    let ulid := shl128 ulid 8
    let ulid := ulid ||| ((d 22 <<< 7) ||| (d 23 <<< 2) ||| (d 24 >>> 3))
    let ulid := shl128 ulid 8
    let ulid := ulid ||| ((d 24 <<< 5) ||| d 25)
    .ok ulid

/-- The source's `Unmarshal` in a build without bounds checking. -/
def UnmarshalUnchecked (mem : Int → Nat) (signedChar : Bool) (str : List Char) :
    Except Failure Nat :=
  UnmarshalFromUnchecked mem signedChar str

/-! ## Binary form -/

/-- The source's `MarshalBinaryTo` with `T = uint8_t`: the 16 bytes written
to `dst`. -/
def MarshalBinaryTo (ulid : Nat) : List Nat :=
  [ u8 (ulid >>> 120), u8 (ulid >>> 112), u8 (ulid >>> 104), u8 (ulid >>> 96),
    u8 (ulid >>> 88), u8 (ulid >>> 80),
    u8 (ulid >>> 72), u8 (ulid >>> 64), u8 (ulid >>> 56), u8 (ulid >>> 48),
    u8 (ulid >>> 40), u8 (ulid >>> 32), u8 (ulid >>> 24), u8 (ulid >>> 16),
    u8 (ulid >>> 8), u8 ulid ]

/-- The source's `MarshalBinary`: a vector of `BIN_SIZE` bytes filled by
`MarshalBinaryTo`. -/
def MarshalBinary (ulid : Nat) : List Nat :=
  MarshalBinaryTo ulid

/-- Read `b[i]` from a buffer of `uint8_t`. -/
def byteAt (b : List Nat) (i : Nat) : Nat := u8 (b.getD i 0)

/-- The source's `UnmarshalBinaryFrom` on a span of exactly `BIN_SIZE` bytes.
The identifier passed by reference is overwritten by the first assignment. -/
def UnmarshalBinaryFrom (b : List Nat) : Nat :=
  let ulid := byteAt b 0
  let ulid := shl128 ulid 8
  let ulid := ulid ||| byteAt b 1
  let ulid := shl128 ulid 8
  let ulid := ulid ||| byteAt b 2
  let ulid := shl128 ulid 8
  let ulid := ulid ||| byteAt b 3
  let ulid := shl128 ulid 8
  let ulid := ulid ||| byteAt b 4
  let ulid := shl128 ulid 8
  let ulid := ulid ||| byteAt b 5
  let ulid := shl128 ulid 8
  let ulid := ulid ||| byteAt b 6
  let ulid := shl128 ulid 8
  let ulid := ulid ||| byteAt b 7
  let ulid := shl128 ulid 8
  let ulid := ulid ||| byteAt b 8
  let ulid := shl128 ulid 8
  let ulid := ulid ||| byteAt b 9
  let ulid := shl128 ulid 8
  let ulid := ulid ||| byteAt b 10
  let ulid := shl128 ulid 8
  let ulid := ulid ||| byteAt b 11
  let ulid := shl128 ulid 8
  let ulid := ulid ||| byteAt b 12
  let ulid := shl128 ulid 8
  let ulid := ulid ||| byteAt b 13
  let ulid := shl128 ulid 8
  let ulid := ulid ||| byteAt b 14
  let ulid := shl128 ulid 8
  let ulid := ulid ||| byteAt b 15
  ulid

/-- The source's `UnmarshalBinary` on a span of dynamic extent (the overload a
`std::vector<uint8_t>` selects): the size is asserted, then the first
`BIN_SIZE` bytes are decoded. -/
def UnmarshalBinary (b : List Nat) : Except Failure Nat :=
  if b.length ≠ BIN_SIZE then .error Failure.assertion
  else .ok (UnmarshalBinaryFrom (b.take BIN_SIZE))

/-! ## Comparison and time -/

/-- The source's `CompareULIDs`: the comparisons are `bool` values promoted
to `int`. -/
def CompareULIDs (ulid1 ulid2 : Nat) : Int :=
  -2 * (if ulid1 < ulid2 then 1 else 0) - 1 * (if ulid1 = ulid2 then 1 else 0) + 1

/-- Conversion of an integer to `int64_t`, the type of the counts of
`<chrono>`: the value modulo `2 ^ 64` in two's complement, which is what a
product that leaves the range leaves in the register. -/
def wrapInt64 (z : Int) : Int := (z + 2 ^ 63) % 2 ^ 64 - 2 ^ 63

/-- The source's `Time`.  The `int64_t` accumulator `ans` stays below `2 ^ 48`,
so its shifts do not overflow.  The result is the returned
`time_point<system_clock>`, given by its count of ticks since the epoch: the
return statement converts `milliseconds{ans}` to the duration of
`system_clock`, a multiplication of the 64-bit count by `ticksPerMs`, the
number of ticks of `system_clock` in a millisecond (1000000 where the clock
counts nanoseconds, as in libstdc++; 1000 and 10000 in the other common
libraries).  The time point of `t` milliseconds is the count
`t * ticksPerMs`. -/
def Time (ticksPerMs : Nat) (ulid : Nat) : Int :=
  let ans : Nat := 0
  let ans := ans ||| u8 (ulid >>> 120)
  let ans := ans <<< 8
  let ans := ans ||| u8 (ulid >>> 112)
  let ans := ans <<< 8
  let ans := ans ||| u8 (ulid >>> 104)
  let ans := ans <<< 8
  let ans := ans ||| u8 (ulid >>> 96)
  let ans := ans <<< 8
  let ans := ans ||| u8 (ulid >>> 88)
  let ans := ans <<< 8
  let ans := ans ||| u8 (ulid >>> 80)
  wrapInt64 ((ans : Int) * (ticksPerMs : Int))

/-! ## Entropy from generators, and the clock -/

/-- What a call that takes the identifier by reference leaves behind: the
identifier after the call, and the exception that ended the call, if any. -/
structure CallResult where
  /-- The identifier passed by reference, as it is when the call is over. -/
  ulid : Nat
  /-- The exception thrown out of the call. -/
  thrown : Option Failure
deriving DecidableEq, Repr

/-- The source's `EncodeEntropyRand`.  The call `RAND_bytes(buffer, 10)` is
embedded by its return value `ret` and by the bytes `buffer k` that the buffer
holds after it. -/
def EncodeEntropyRand (ret : Int) (buffer : Nat → Nat) (ulid : Nat) : CallResult :=
  let ulid := shl128 (ulid >>> 80) 80
  if ret ≠ 1 then
    { ulid := ulid, thrown := some Failure.runtimeError }
  else
    let e := u8 (buffer 0)
    let e := shl128 e 8
    let e := e ||| u8 (buffer 1)
    let e := shl128 e 8
    let e := e ||| u8 (buffer 2)
    let e := shl128 e 8
    let e := e ||| u8 (buffer 3)
    let e := shl128 e 8
    let e := e ||| u8 (buffer 4)
    let e := shl128 e 8
    let e := e ||| u8 (buffer 5)
    let e := shl128 e 8
    let e := e ||| u8 (buffer 6)
    let e := shl128 e 8
    let e := e ||| u8 (buffer 7)
    let e := shl128 e 8
    let e := e ||| u8 (buffer 8)
    let e := shl128 e 8
    let e := e ||| u8 (buffer 9)
    let ulid := ulid ||| e
    { ulid := ulid, thrown := none }

/-- The source's `EncodeEntropyMt19937`.  The generator with the distribution
on `[0, 255]` is embedded by the sequence of its draws: `draw k` is the result
of draw number `k` (from 0), of type `rand_t`. -/
def EncodeEntropyMt19937 (draw : Nat → Nat) (ulid : Nat) : Nat :=
  let ulid := shl128 (ulid >>> 80) 80
  let e := u8 (draw 0)
  let e := shl128 e 8
  let e := e ||| u8 (draw 1)
  let e := shl128 e 8
  let e := e ||| u8 (draw 2)
  let e := shl128 e 8
  let e := e ||| u8 (draw 3)
  let e := shl128 e 8
  let e := e ||| u8 (draw 4)
  let e := shl128 e 8
  let e := e ||| u8 (draw 5)
  let e := shl128 e 8
  let e := e ||| u8 (draw 6)
  let e := shl128 e 8
  let e := e ||| u8 (draw 7)
  let e := shl128 e 8
  let e := e ||| u8 (draw 8)
  let e := shl128 e 8
  let e := e ||| u8 (draw 9)
  ulid ||| e

/-- The source's `EncodeTimeNow`; `now` is the result of `time(nullptr)`, a
count of seconds, which `from_time_t` turns into a time point. -/
def EncodeTimeNow (now : Int) (ulid : Nat) : Nat :=
  let time_now := now * 1000
  EncodeTime time_now ulid

/-- The source's `EncodeNowRand`: `EncodeTimeNow`, then `EncodeEntropyRand`. -/
def EncodeNowRand (now ret : Int) (buffer : Nat → Nat) (ulid : Nat) : CallResult :=
  let ulid := EncodeTimeNow now ulid
  EncodeEntropyRand ret buffer ulid

/-- The source's `CreateNowRand`: `EncodeNowRand` on an identifier initialised
to zero, which is returned unless the call throws. -/
def CreateNowRand (now ret : Int) (buffer : Nat → Nat) : Except Failure Nat :=
  let ulid := 0
  let r := EncodeNowRand now ret buffer ulid
  match r.thrown with
  | some f => .error f
  | none => .ok r.ulid

/-! ## Notions of the specification -/

/-- Three-way lexicographic comparison of two sequences of numbers (bytes, or
character codes): `-1`, `0` or `1`; a proper prefix is smaller. -/
def lexCompare : List Nat → List Nat → Int
  | [], [] => 0
  | [], _ :: _ => -1
  | _ :: _, [] => 1
  | a :: as, b :: bs => if a < b then -1 else if b < a then 1 else lexCompare as bs

/-- The ASCII codes of the characters of a string. -/
def codes (s : List Char) : List Nat := s.map Char.toNat

/-- The 32 symbols of the alphabet, as the specification writes them. -/
def alphabet : List Char := "0123456789ABCDEFGHJKMNPQRSTVWXYZ".toList

/-- The position of a character in the alphabet, from 0; it is 32 for a
character that is not one of the 32 symbols. -/
def alphabetIndex (c : Char) : Nat := alphabet.indexOf c

/-- The field `x[hi..lo]` of a natural number: bits `hi` down to `lo`, as a
number. -/
def bitsOf (x hi lo : Nat) : Nat := x / 2 ^ lo % 2 ^ (hi + 1 - lo)

/-- The number that the ten bytes of a callback form, most significant byte
first. -/
def entropyValue (rng : Nat → Nat) : Nat :=
  ((((((((u8 (rng 0) * 256 + u8 (rng 1)) * 256 + u8 (rng 2)) * 256 + u8 (rng 3)) * 256
    + u8 (rng 4)) * 256 + u8 (rng 5)) * 256 + u8 (rng 6)) * 256 + u8 (rng 7)) * 256
    + u8 (rng 8)) * 256 + u8 (rng 9)

/-- The accumulator of `UnmarshalFrom` as a function of the 26 table values
`v k = dec[int(str[k])]`: the same shifts and ORs, in the same order. -/
def unmarshalValue (v : Nat → Nat) : Nat :=
  let ulid := (v 0 <<< 5) ||| v 1
  let ulid := shl128 ulid 8
  let ulid := ulid ||| ((v 2 <<< 3) ||| (v 3 >>> 2))
  let ulid := shl128 ulid 8
  let ulid := ulid ||| ((v 3 <<< 6) ||| (v 4 <<< 1) ||| (v 5 >>> 4))
  let ulid := shl128 ulid 8
  let ulid := ulid ||| ((v 5 <<< 4) ||| (v 6 >>> 1))
  let ulid := shl128 ulid 8
  let ulid := ulid ||| ((v 6 <<< 7) ||| (v 7 <<< 2) ||| (v 8 >>> 3))
  let ulid := shl128 ulid 8
  let ulid := ulid ||| ((v 8 <<< 5) ||| v 9)
  let ulid := shl128 ulid 8
  let ulid := ulid ||| ((v 10 <<< 3) ||| (v 11 >>> 2))
  let ulid := shl128 ulid 8
  let ulid := ulid ||| ((v 11 <<< 6) ||| (v 12 <<< 1) ||| (v 13 >>> 4))
  let ulid := shl128 ulid 8
  let ulid := ulid ||| ((v 13 <<< 4) ||| (v 14 >>> 1))
  let ulid := shl128 ulid 8
  let ulid := ulid ||| ((v 14 <<< 7) ||| (v 15 <<< 2) ||| (v 16 >>> 3))
  let ulid := shl128 ulid 8
  let ulid := ulid ||| ((v 16 <<< 5) ||| v 17)
  let ulid := shl128 ulid 8
  let ulid := ulid ||| ((v 18 <<< 3) ||| (v 19 >>> 2))
  let ulid := shl128 ulid 8
  let ulid := ulid ||| ((v 19 <<< 6) ||| (v 20 <<< 1) ||| (v 21 >>> 4))
  let ulid := shl128 ulid 8
  let ulid := ulid ||| ((v 21 <<< 4) ||| (v 22 >>> 1))
  let ulid := shl128 ulid 8
  let ulid := ulid ||| ((v 22 <<< 7) ||| (v 23 <<< 2) ||| (v 24 >>> 3))
  let ulid := shl128 ulid 8
  let ulid := ulid ||| ((v 24 <<< 5) ||| v 25)
  ulid

/-- The number that a sequence of digits in base `B` denotes, most significant
digit first. -/
def horner (B : Nat) (l : List Nat) : Nat :=
  l.foldl (fun acc d => acc * B + d) 0

/-! ## Arithmetic reading of the bit operations -/

theorem lor_eq_add (x b i : Nat) (hx : x % 2 ^ i = 0) (hb : b < 2 ^ i) : x ||| b = x + b := by
  have h : x = 2 ^ i * (x / 2 ^ i) := by
    have := Nat.div_add_mod x (2 ^ i)
    omega
  rw [h, ← Nat.mul_add_lt_is_or hb]

theorem shl128_eq (x k : Nat) (hk : k ≤ 128) : shl128 x k = (x % 2 ^ (128 - k)) * 2 ^ k := by
  unfold shl128
  rw [Nat.shiftLeft_eq]
  have h : (2:Nat) ^ 128 = 2 ^ (128 - k) * 2 ^ k := by
    rw [← Nat.pow_add]; congr 1; omega
  rw [h, Nat.mul_mod_mul_right]

theorem shl128_lt (x k : Nat) : shl128 x k < 2 ^ 128 :=
  Nat.mod_lt _ (by norm_num)

theorem shl128_or_byte (acc b : Nat) (hacc : acc < 2 ^ 120) (hb : b < 256) :
    shl128 acc 8 ||| b = acc * 256 + b := by
  rw [shl128_eq _ _ (by norm_num), lor_eq_add _ b 8 (Nat.mul_mod_left _ _) (by omega)]
  have : acc % 2 ^ (128 - 8) = acc := Nat.mod_eq_of_lt (by omega)
  rw [this]; norm_num

theorem shl_or_byte (acc b : Nat) (hb : b < 256) : acc <<< 8 ||| b = acc * 256 + b := by
  rw [Nat.shiftLeft_eq, lor_eq_add _ b 8 (Nat.mul_mod_left _ _) (by omega)]
  norm_num

theorem u8_lt (n : Nat) : u8 n < 256 := Nat.mod_lt _ (by norm_num)

theorem u8_shr (x k : Nat) : u8 (x >>> k) = x / 2 ^ k % 256 := by
  unfold u8
  rw [Nat.shiftRight_eq_div_pow]

theorem u8OfInt_shr (t : Int) (k : Nat) : u8OfInt (t >>> k) = ((t / 2 ^ k) % 256).toNat := by
  unfold u8OfInt
  rw [Int.shiftRight_eq_div_pow]
  norm_cast

theorem toNat_emod_cast (z : Int) (m : Nat) (hm : 0 < m) :
    (((z % (m : Int)).toNat : Nat) : Int) = z % (m : Int) :=
  Int.toNat_of_nonneg (Int.emod_nonneg _ (by omega))

/-! ## The two fields -/

/-- `EncodeTime` in arithmetic: the low 48 bits of the timestamp above the low
80 bits of the identifier. -/
theorem EncodeTime_eq (t : Int) (u : Nat) :
    EncodeTime t u = (t % 2 ^ 48).toNat * 2 ^ 80 + u % 2 ^ 80 := by
  have h0 : u8OfInt t = (t % 256).toNat := rfl
  have hm : pred128 (shl128 1 80) = 2 ^ 80 - 1 := by
    simp only [pred128, shl128, Nat.shiftLeft_eq]
    norm_num
  unfold EncodeTime
  simp only [hm, Nat.and_pow_two_sub_one_eq_mod]
  simp only [u8OfInt_shr, h0]
  clear h0 hm
  have hu : u % 2 ^ 80 < 2 ^ 80 := Nat.mod_lt _ (by norm_num)
  have e5 := toNat_emod_cast (t / 2 ^ 40) 256 (by norm_num)
  have e4 := toNat_emod_cast (t / 2 ^ 32) 256 (by norm_num)
  have e3 := toNat_emod_cast (t / 2 ^ 24) 256 (by norm_num)
  have e2 := toNat_emod_cast (t / 2 ^ 16) 256 (by norm_num)
  have e1 := toNat_emod_cast (t / 2 ^ 8) 256 (by norm_num)
  have e0 := toNat_emod_cast t 256 (by norm_num)
  have eT := toNat_emod_cast t (2 ^ 48) (by norm_num)
  simp only [Nat.cast_ofNat, Nat.cast_pow] at e5 e4 e3 e2 e1 e0 eT
  generalize (t / 2 ^ 40 % 256).toNat = c5 at *
  generalize (t / 2 ^ 32 % 256).toNat = c4 at *
  generalize (t / 2 ^ 24 % 256).toNat = c3 at *
  generalize (t / 2 ^ 16 % 256).toNat = c2 at *
  generalize (t / 2 ^ 8 % 256).toNat = c1 at *
  generalize (t % 256).toNat = c0 at *
  generalize (t % 2 ^ 48).toNat = T at *
  have b5 : c5 < 256 := by omega
  have b4 : c4 < 256 := by omega
  have b3 : c3 < 256 := by omega
  have b2 : c2 < 256 := by omega
  have b1 : c1 < 256 := by omega
  have b0 : c0 < 256 := by omega
  have hT : (((((c5 * 256 + c4) * 256 + c3) * 256 + c2) * 256 + c1) * 256 + c0) = T := by
    omega
  have hlt : T < 2 ^ 48 := by omega
  clear e5 e4 e3 e2 e1 e0 eT
  simp (disch := omega) only [shl128_or_byte]
  rw [hT]
  rw [shl128_eq _ _ (by norm_num), lor_eq_add _ _ 80 (Nat.mul_mod_left _ _) hu,
    Nat.mod_eq_of_lt (by simpa using hlt)]

theorem entropyValue_lt (rng : Nat → Nat) : entropyValue rng < 2 ^ 80 := by
  unfold entropyValue
  have h0 := u8_lt (rng 0)
  have h1 := u8_lt (rng 1)
  have h2 := u8_lt (rng 2)
  have h3 := u8_lt (rng 3)
  have h4 := u8_lt (rng 4)
  have h5 := u8_lt (rng 5)
  have h6 := u8_lt (rng 6)
  have h7 := u8_lt (rng 7)
  have h8 := u8_lt (rng 8)
  have h9 := u8_lt (rng 9)
  omega

/-- `EncodeEntropy` in arithmetic: bits 127-80 of the identifier above the
number formed by the ten bytes. -/
theorem EncodeEntropy_eq (rng : Nat → Nat) (u : Nat) :
    EncodeEntropy rng u = (u / 2 ^ 80 % 2 ^ 48) * 2 ^ 80 + entropyValue rng := by
  have hlt := entropyValue_lt rng
  unfold entropyValue at hlt ⊢
  unfold EncodeEntropy
  have h0 := u8_lt (rng 0)
  have h1 := u8_lt (rng 1)
  have h2 := u8_lt (rng 2)
  have h3 := u8_lt (rng 3)
  have h4 := u8_lt (rng 4)
  have h5 := u8_lt (rng 5)
  have h6 := u8_lt (rng 6)
  have h7 := u8_lt (rng 7)
  have h8 := u8_lt (rng 8)
  have h9 := u8_lt (rng 9)
  generalize u8 (rng 0) = c0 at *
  generalize u8 (rng 1) = c1 at *
  generalize u8 (rng 2) = c2 at *
  generalize u8 (rng 3) = c3 at *
  generalize u8 (rng 4) = c4 at *
  generalize u8 (rng 5) = c5 at *
  generalize u8 (rng 6) = c6 at *
  generalize u8 (rng 7) = c7 at *
  generalize u8 (rng 8) = c8 at *
  generalize u8 (rng 9) = c9 at *
  simp (disch := omega) only [shl128_or_byte]
  rw [shl128_eq _ _ (by norm_num), Nat.shiftRight_eq_div_pow,
    lor_eq_add _ _ 80 (Nat.mul_mod_left _ _) hlt]

/-- `Time` in arithmetic: bits 127-80 of the identifier, converted to ticks of
the system clock in 64 bits. -/
theorem Time_eq (ticksPerMs x : Nat) :
    Time ticksPerMs x = wrapInt64 (((x / 2 ^ 80 % 2 ^ 48 : Nat) : Int) * (ticksPerMs : Int)) := by
  unfold Time
  simp only [Nat.zero_or, u8_shr]
  have h5 : x / 2 ^ 120 % 256 < 256 := Nat.mod_lt _ (by norm_num)
  have h4 : x / 2 ^ 112 % 256 < 256 := Nat.mod_lt _ (by norm_num)
  have h3 : x / 2 ^ 104 % 256 < 256 := Nat.mod_lt _ (by norm_num)
  have h2 : x / 2 ^ 96 % 256 < 256 := Nat.mod_lt _ (by norm_num)
  have h1 : x / 2 ^ 88 % 256 < 256 := Nat.mod_lt _ (by norm_num)
  have h0 : x / 2 ^ 80 % 256 < 256 := Nat.mod_lt _ (by norm_num)
  simp (disch := omega) only [shl_or_byte]
  congr 3
  omega

/-- A count inside the range of `int64_t` is not changed by the conversion. -/
theorem wrapInt64_of_range (z : Int) (h0 : 0 ≤ z) (h1 : z < 2 ^ 63) : wrapInt64 z = z := by
  unfold wrapInt64
  omega

/-- `Encode` in arithmetic, whatever the identifier held before. -/
theorem Encode_eq (t : Int) (rng : Nat → Nat) (u : Nat) :
    Encode t rng u = (t % 2 ^ 48).toNat * 2 ^ 80 + entropyValue rng := by
  unfold Encode
  simp only [EncodeEntropy_eq, EncodeTime_eq]
  have eT := toNat_emod_cast t (2 ^ 48) (by norm_num)
  simp only [Nat.cast_ofNat, Nat.cast_pow] at eT
  generalize (t % 2 ^ 48).toNat = T at *
  have hT : T < 2 ^ 48 := by omega
  have hu : u % 2 ^ 80 < 2 ^ 80 := Nat.mod_lt _ (by norm_num)
  have h : (T * 2 ^ 80 + u % 2 ^ 80) / 2 ^ 80 % 2 ^ 48 = T := by omega
  rw [h]

theorem toNat_emod_of_range (t : Int) (h0 : 0 ≤ t) (h1 : t < 2 ^ 48) :
    (t % 2 ^ 48).toNat = t.toNat := by
  rw [Int.emod_eq_of_lt h0 h1]

/-! ## Comparison, timestamps and entropy -/

/-- C6: `CompareULIDs a b` is `-1` when `a < b`, `0` when `a = b` and `1` when
`a > b`, takes no other value, and changes sign when its arguments are
swapped. -/
theorem C6_CompareULIDs_three_way (a b : Nat) :
    CompareULIDs a b = (if a < b then -1 else if a = b then 0 else 1)
    ∧ (CompareULIDs a b = -1 ∨ CompareULIDs a b = 0 ∨ CompareULIDs a b = 1)
    ∧ CompareULIDs a b = -CompareULIDs b a := by
  unfold CompareULIDs
  rcases Nat.lt_trichotomy a b with h | h | h
  · have h1 : ¬ a = b := by omega
    have h2 : ¬ b < a := by omega
    have h3 : ¬ b = a := by omega
    simp [h, h1, h2, h3]
  · subst h
    simp
  · have h1 : ¬ a = b := by omega
    have h2 : ¬ a < b := by omega
    have h3 : ¬ b = a := by omega
    simp [h, h1, h2, h3]

/-- C8: for every millisecond count `t`, negative or beyond 48 bits included,
`EncodeTime t u` is an identifier whose bits 127-80 are `t mod 2^48`. -/
theorem C8_EncodeTime_truncates (t : Int) (u : Nat) :
    EncodeTime t u < 2 ^ 128 ∧ ((bitsOf (EncodeTime t u) 127 80 : Nat) : Int) = t % 2 ^ 48 := by
  rw [EncodeTime_eq]
  have eT := toNat_emod_cast t (2 ^ 48) (by norm_num)
  simp only [Nat.cast_ofNat, Nat.cast_pow] at eT
  rw [← eT]
  generalize (t % 2 ^ 48).toNat = T at *
  have hT : T < 2 ^ 48 := by omega
  have hu : u % 2 ^ 80 < 2 ^ 80 := Nat.mod_lt _ (by norm_num)
  refine ⟨by omega, ?_⟩
  congr 1
  simp only [bitsOf]
  norm_num
  omega

/-- C9: `EncodeTime` keeps bits 79-0 of the identifier, `EncodeEntropy` keeps
its bits 127-80, and so `Time` is unchanged by `EncodeEntropy`. -/
theorem C9_field_independence (t : Int) (rng : Nat → Nat) (u : Nat) (ticksPerMs : Nat) :
    bitsOf (EncodeTime t u) 79 0 = bitsOf u 79 0
    ∧ bitsOf (EncodeEntropy rng u) 127 80 = bitsOf u 127 80
    ∧ Time ticksPerMs (EncodeEntropy rng u) = Time ticksPerMs u := by
  have hE := entropyValue_lt rng
  have hu : u % 2 ^ 80 < 2 ^ 80 := Nat.mod_lt _ (by norm_num)
  refine ⟨?_, ?_, ?_⟩
  · rw [EncodeTime_eq]
    simp only [bitsOf]
    norm_num
    omega
  · rw [EncodeEntropy_eq]
    simp only [bitsOf]
    norm_num
    omega
  · rw [Time_eq, Time_eq, EncodeEntropy_eq]
    congr 3
    omega


/-- C10: when the callback returns the bytes `b 0`, ..., `b 9` in call order,
bits 79-0 of the result of `EncodeEntropy` are the big-endian number
`b 0 * 2^72 + ... + b 9`, whatever bits 79-0 of `u` held; equivalently bytes
6..15 of `MarshalBinary` of the result are `b 0`, ..., `b 9`. -/
theorem C10_EncodeEntropy_bytes (b : Nat → Nat) (u : Nat) (hb : ∀ k, k < 10 → b k < 256) :
    bitsOf (EncodeEntropy b u) 79 0
      = b 0 * 2 ^ 72 + b 1 * 2 ^ 64 + b 2 * 2 ^ 56 + b 3 * 2 ^ 48 + b 4 * 2 ^ 40
        + b 5 * 2 ^ 32 + b 6 * 2 ^ 24 + b 7 * 2 ^ 16 + b 8 * 2 ^ 8 + b 9
    ∧ (MarshalBinary (EncodeEntropy b u)).drop 6
      = [b 0, b 1, b 2, b 3, b 4, b 5, b 6, b 7, b 8, b 9] := by
  have h0 := hb 0 (by norm_num)
  have h1 := hb 1 (by norm_num)
  have h2 := hb 2 (by norm_num)
  have h3 := hb 3 (by norm_num)
  have h4 := hb 4 (by norm_num)
  have h5 := hb 5 (by norm_num)
  have h6 := hb 6 (by norm_num)
  have h7 := hb 7 (by norm_num)
  have h8 := hb 8 (by norm_num)
  have h9 := hb 9 (by norm_num)
  rw [EncodeEntropy_eq]
  simp only [entropyValue, u8, Nat.mod_eq_of_lt h0, Nat.mod_eq_of_lt h1, Nat.mod_eq_of_lt h2,
    Nat.mod_eq_of_lt h3, Nat.mod_eq_of_lt h4, Nat.mod_eq_of_lt h5, Nat.mod_eq_of_lt h6,
    Nat.mod_eq_of_lt h7, Nat.mod_eq_of_lt h8, Nat.mod_eq_of_lt h9]
  generalize u / 2 ^ 80 % 2 ^ 48 = T
  generalize b 0 = c0 at *
  generalize b 1 = c1 at *
  generalize b 2 = c2 at *
  generalize b 3 = c3 at *
  generalize b 4 = c4 at *
  generalize b 5 = c5 at *
  generalize b 6 = c6 at *
  generalize b 7 = c7 at *
  generalize b 8 = c8 at *
  generalize b 9 = c9 at *
  clear hb
  constructor
  · simp only [bitsOf]
    norm_num
    omega
  · simp only [MarshalBinary, MarshalBinaryTo, u8_shr, u8, List.drop_succ_cons, List.drop_zero]
    refine congrArg₂ _ (by omega) (congrArg₂ _ (by omega) (congrArg₂ _ (by omega)
      (congrArg₂ _ (by omega) (congrArg₂ _ (by omega) (congrArg₂ _ (by omega)
      (congrArg₂ _ (by omega) (congrArg₂ _ (by omega) (congrArg₂ _ (by omega)
      (congrArg₂ _ (by omega) rfl)))))))))

/-- C10 at a concrete input: the bytes 1..10 written over an identifier whose
bits are all set. -/
theorem C10_EncodeEntropy_bytes_witness :
    (∀ k, k < 10 → (fun k => k + 1) k < 256)
    ∧ bitsOf (EncodeEntropy (fun k => k + 1) (2 ^ 128 - 1)) 79 0 = 0x0102030405060708090A
    ∧ (MarshalBinary (EncodeEntropy (fun k => k + 1) (2 ^ 128 - 1))).drop 6
      = [1, 2, 3, 4, 5, 6, 7, 8, 9, 10] :=
  ⟨by decide, C10_EncodeEntropy_bytes (fun k => k + 1) (2 ^ 128 - 1) (by decide)⟩

/-- C5: identifiers created at timestamps `t1 < t2` in `[0, 2^48)` compare as
`-1`, and as `1` with the arguments swapped, whatever the entropy bytes. -/
theorem C5_Create_sorted (t1 t2 : Int) (e1 e2 : Nat → Nat)
    (h0 : 0 ≤ t1) (h12 : t1 < t2) (h2 : t2 < 2 ^ 48) :
    CompareULIDs (Create t1 e1) (Create t2 e2) = -1
    ∧ CompareULIDs (Create t2 e2) (Create t1 e1) = 1 := by
  have hE1 := entropyValue_lt e1
  have hE2 := entropyValue_lt e2
  have hlt : Create t1 e1 < Create t2 e2 := by
    unfold Create
    simp only [Encode_eq]
    rw [toNat_emod_of_range t1 h0 (by omega), toNat_emod_of_range t2 (by omega) h2]
    have hT1 : ((t1.toNat : Nat) : Int) = t1 := Int.toNat_of_nonneg h0
    have hT2 : ((t2.toNat : Nat) : Int) = t2 := Int.toNat_of_nonneg (by omega)
    generalize t1.toNat = T1 at *
    generalize t2.toNat = T2 at *
    omega
  have h1 : ¬ Create t1 e1 = Create t2 e2 := by omega
  have h3 : ¬ Create t2 e2 < Create t1 e1 := by omega
  have h4 : ¬ Create t2 e2 = Create t1 e1 := by omega
  unfold CompareULIDs
  simp [hlt, h1, h3, h4]

/-- C5 at two timestamps one second apart, the later one with the smaller
entropy. -/
theorem C5_Create_sorted_witness :
    (0 : Int) ≤ 1484581420000 ∧ (1484581420000 : Int) < 1484581421000
    ∧ (1484581421000 : Int) < 2 ^ 48
    ∧ CompareULIDs (Create 1484581420000 (fun _ => 255)) (Create 1484581421000 (fun _ => 0)) = -1
    ∧ CompareULIDs (Create 1484581421000 (fun _ => 0)) (Create 1484581420000 (fun _ => 255))
      = 1 :=
  ⟨by decide, by decide, by decide,
    C5_Create_sorted 1484581420000 1484581421000 (fun _ => 255) (fun _ => 0)
      (by decide) (by decide) (by decide)⟩

/-! ## Digit sequences -/

theorem foldl_horner (B : Nat) (l : List Nat) (acc : Nat) :
    l.foldl (fun a d => a * B + d) acc = acc * B ^ l.length + horner B l := by
  induction l generalizing acc with
  | nil => simp [horner]
  | cons d l ih =>
    unfold horner
    simp only [List.foldl_cons, List.length_cons]
    rw [ih (acc * B + d), ih (0 * B + d)]
    ring

theorem horner_cons (B d : Nat) (l : List Nat) :
    horner B (d :: l) = d * B ^ l.length + horner B l := by
  unfold horner
  simp only [List.foldl_cons]
  rw [foldl_horner B l (0 * B + d)]
  simp [horner]

theorem horner_lt (B : Nat) (l : List Nat) (hl : ∀ d ∈ l, d < B) :
    horner B l < B ^ l.length := by
  induction l with
  | nil => simp [horner]
  | cons d l ih =>
    rw [horner_cons, List.length_cons, Nat.pow_succ]
    have h1 := ih (fun e he => hl e (List.mem_cons_of_mem _ he))
    have h2 : d < B := hl d (List.mem_cons_self _ _)
    have h3 : (d + 1) * B ^ l.length ≤ B * B ^ l.length := Nat.mul_le_mul_right _ h2
    rw [Nat.mul_comm (B ^ l.length) B]
    have h4 : (d + 1) * B ^ l.length = d * B ^ l.length + B ^ l.length := by ring
    omega

/-- Lexicographic comparison of two digit sequences of equal length is the
comparison of the numbers they denote. -/
theorem lexCompare_eq_CompareULIDs (B : Nat) (l1 l2 : List Nat) (hlen : l1.length = l2.length)
    (h1 : ∀ d ∈ l1, d < B) (h2 : ∀ d ∈ l2, d < B) :
    lexCompare l1 l2 = CompareULIDs (horner B l1) (horner B l2) := by
  induction l1 generalizing l2 with
  | nil =>
    cases l2 with
    | nil => simp [lexCompare, CompareULIDs, horner]
    | cons b bs => simp at hlen
  | cons a as ih =>
    cases l2 with
    | nil => simp at hlen
    | cons b bs =>
      have hlen2 : as.length = bs.length := by simpa using hlen
      have ha := horner_lt B as (fun e he => h1 e (List.mem_cons_of_mem _ he))
      have hb := horner_lt B bs (fun e he => h2 e (List.mem_cons_of_mem _ he))
      have ih2 := ih bs hlen2 (fun e he => h1 e (List.mem_cons_of_mem _ he))
        (fun e he => h2 e (List.mem_cons_of_mem _ he))
      rw [horner_cons, horner_cons, ← hlen2]
      rw [← hlen2] at hb
      unfold lexCompare
      generalize B ^ as.length = P at *
      by_cases hab : a < b
      · have h3 : (a + 1) * P ≤ b * P := Nat.mul_le_mul_right _ hab
        have h4 : (a + 1) * P = a * P + P := by ring
        have h5 : a * P + horner B as < b * P + horner B bs := by omega
        have h6 : ¬ a * P + horner B as = b * P + horner B bs := by omega
        simp [hab, CompareULIDs, h5, h6]
      · by_cases hba : b < a
        · have h3 : (b + 1) * P ≤ a * P := Nat.mul_le_mul_right _ hba
          have h4 : (b + 1) * P = b * P + P := by ring
          have h5 : ¬ a * P + horner B as < b * P + horner B bs := by omega
          have h6 : ¬ a * P + horner B as = b * P + horner B bs := by omega
          simp [hab, hba, CompareULIDs, h5, h6]
        · have hEq : a = b := by omega
          subst hEq
          simp only [hab, if_false]
          rw [ih2]
          unfold CompareULIDs
          by_cases h7 : horner B as < horner B bs
          · have h8 : a * P + horner B as < a * P + horner B bs := by omega
            have h9 : ¬ horner B as = horner B bs := by omega
            have h10 : ¬ a * P + horner B as = a * P + horner B bs := by omega
            simp [h7, h8, h9, h10]
          · by_cases h11 : horner B as = horner B bs
            · simp [h11]
            · have h8 : ¬ a * P + horner B as < a * P + horner B bs := by omega
              have h10 : ¬ a * P + horner B as = a * P + horner B bs := by omega
              simp [h7, h8, h11, h10]

/-- Lexicographic comparison is unchanged by a map that is strictly increasing
on the elements below `n`. -/
theorem lexCompare_map (f : Nat → Nat) (n : Nat)
    (hf : ∀ i, i < n → ∀ j, j < n → i < j → f i < f j) (l1 l2 : List Nat)
    (h1 : ∀ d ∈ l1, d < n) (h2 : ∀ d ∈ l2, d < n) :
    lexCompare (l1.map f) (l2.map f) = lexCompare l1 l2 := by
  induction l1 generalizing l2 with
  | nil => cases l2 <;> simp [lexCompare]
  | cons a as ih =>
    cases l2 with
    | nil => simp [lexCompare]
    | cons b bs =>
      have ha : a < n := h1 a (List.mem_cons_self _ _)
      have hb : b < n := h2 b (List.mem_cons_self _ _)
      have ih2 := ih bs (fun e he => h1 e (List.mem_cons_of_mem _ he))
        (fun e he => h2 e (List.mem_cons_of_mem _ he))
      simp only [List.map_cons, lexCompare]
      by_cases hab : a < b
      · simp [hab, hf a ha b hb hab]
      · by_cases hba : b < a
        · have := hf b hb a ha hba
          have h3 : ¬ f a < f b := by omega
          simp [hab, hba, this, h3]
        · have hEq : a = b := by omega
          subst hEq
          simp [ih2]

/-! ## Text form: the indices of `MarshalTo` -/

set_option maxRecDepth 100000 in
theorem byte_masks : ∀ a, a < 256 →
    ((a &&& 224) >>> 5 = a / 32 ∧ a &&& 31 = a % 32 ∧ (a &&& 248) >>> 3 = a / 8 ∧
     (a &&& 7) <<< 2 = a % 8 * 4 ∧ (a &&& 192) >>> 6 = a / 64 ∧
     (a &&& 62) >>> 1 = a / 2 % 32 ∧ (a &&& 1) <<< 4 = a % 2 * 16 ∧
     (a &&& 240) >>> 4 = a / 16 ∧ (a &&& 15) <<< 1 = a % 16 * 2 ∧
     (a &&& 128) >>> 7 = a / 128 ∧ (a &&& 124) >>> 2 = a / 4 % 32 ∧
     (a &&& 3) <<< 3 = a % 4 * 8) := by
  decide

theorem mask224 (n : Nat) : (n % 256 &&& 224) >>> 5 = n % 256 / 32 :=
  (byte_masks _ (Nat.mod_lt _ (by norm_num))).1
theorem mask31 (n : Nat) : n % 256 &&& 31 = n % 256 % 32 :=
  (byte_masks _ (Nat.mod_lt _ (by norm_num))).2.1
theorem mask248 (n : Nat) : (n % 256 &&& 248) >>> 3 = n % 256 / 8 :=
  (byte_masks _ (Nat.mod_lt _ (by norm_num))).2.2.1
theorem mask7 (n : Nat) : (n % 256 &&& 7) <<< 2 = n % 256 % 8 * 4 :=
  (byte_masks _ (Nat.mod_lt _ (by norm_num))).2.2.2.1
theorem mask192 (n : Nat) : (n % 256 &&& 192) >>> 6 = n % 256 / 64 :=
  (byte_masks _ (Nat.mod_lt _ (by norm_num))).2.2.2.2.1
theorem mask62 (n : Nat) : (n % 256 &&& 62) >>> 1 = n % 256 / 2 % 32 :=
  (byte_masks _ (Nat.mod_lt _ (by norm_num))).2.2.2.2.2.1
theorem mask1 (n : Nat) : (n % 256 &&& 1) <<< 4 = n % 256 % 2 * 16 :=
  (byte_masks _ (Nat.mod_lt _ (by norm_num))).2.2.2.2.2.2.1
theorem mask240 (n : Nat) : (n % 256 &&& 240) >>> 4 = n % 256 / 16 :=
  (byte_masks _ (Nat.mod_lt _ (by norm_num))).2.2.2.2.2.2.2.1
theorem mask15 (n : Nat) : (n % 256 &&& 15) <<< 1 = n % 256 % 16 * 2 :=
  (byte_masks _ (Nat.mod_lt _ (by norm_num))).2.2.2.2.2.2.2.2.1
theorem mask128 (n : Nat) : (n % 256 &&& 128) >>> 7 = n % 256 / 128 :=
  (byte_masks _ (Nat.mod_lt _ (by norm_num))).2.2.2.2.2.2.2.2.2.1
theorem mask124 (n : Nat) : (n % 256 &&& 124) >>> 2 = n % 256 / 4 % 32 :=
  (byte_masks _ (Nat.mod_lt _ (by norm_num))).2.2.2.2.2.2.2.2.2.2.1
theorem mask3 (n : Nat) : (n % 256 &&& 3) <<< 3 = n % 256 % 4 * 8 :=
  (byte_masks _ (Nat.mod_lt _ (by norm_num))).2.2.2.2.2.2.2.2.2.2.2

theorem lor_mul2 (p q : Nat) (hq : q < 2) : p * 2 ||| q = p * 2 + q :=
  lor_eq_add _ _ 1 (Nat.mul_mod_left _ _) hq
theorem lor_mul4 (p q : Nat) (hq : q < 4) : p * 4 ||| q = p * 4 + q :=
  lor_eq_add _ _ 2 (Nat.mul_mod_left _ _) hq
theorem lor_mul8 (p q : Nat) (hq : q < 8) : p * 8 ||| q = p * 8 + q :=
  lor_eq_add _ _ 3 (Nat.mul_mod_left _ _) hq
theorem lor_mul16 (p q : Nat) (hq : q < 16) : p * 16 ||| q = p * 16 + q :=
  lor_eq_add _ _ 4 (Nat.mul_mod_left _ _) hq

/-- The 26 indices of `MarshalTo` are the base-32 digits of the identifier,
most significant first; the first one holds the top three bits. -/
theorem MarshalIndices_eq (x : Nat) :
    MarshalIndices x =
    [ x / 2 ^ 125 % 8,
      x / 2 ^ 120 % 32,
      x / 2 ^ 115 % 32,
      x / 2 ^ 110 % 32,
      x / 2 ^ 105 % 32,
      x / 2 ^ 100 % 32,
      x / 2 ^ 95 % 32,
      x / 2 ^ 90 % 32,
      x / 2 ^ 85 % 32,
      x / 2 ^ 80 % 32,
      x / 2 ^ 75 % 32,
      x / 2 ^ 70 % 32,
      x / 2 ^ 65 % 32,
      x / 2 ^ 60 % 32,
      x / 2 ^ 55 % 32,
      x / 2 ^ 50 % 32,
      x / 2 ^ 45 % 32,
      x / 2 ^ 40 % 32,
      x / 2 ^ 35 % 32,
      x / 2 ^ 30 % 32,
      x / 2 ^ 25 % 32,
      x / 2 ^ 20 % 32,
      x / 2 ^ 15 % 32,
      x / 2 ^ 10 % 32,
      x / 2 ^ 5 % 32,
      x % 32 ] := by
  unfold MarshalIndices
  have hx : u8 x = x / 2 ^ 0 % 256 := by simp [u8]
  simp only [u8_shr, hx]
  simp only [mask224, mask31, mask248, mask7, mask192, mask62, mask1, mask240, mask15, mask128,
    mask124, mask3]
  simp (disch := omega) only [lor_mul2, lor_mul4, lor_mul8, lor_mul16]
  simp only [pow_zero, Nat.div_one]
  exact congrArg₂ _ (by omega) (congrArg₂ _ (by omega) (congrArg₂ _ (by omega) (
    congrArg₂ _ (by omega) (congrArg₂ _ (by omega) (congrArg₂ _ (by omega) (
    congrArg₂ _ (by omega) (congrArg₂ _ (by omega) (congrArg₂ _ (by omega) (
    congrArg₂ _ (by omega) (congrArg₂ _ (by omega) (congrArg₂ _ (by omega) (
    congrArg₂ _ (by omega) (congrArg₂ _ (by omega) (congrArg₂ _ (by omega) (
    congrArg₂ _ (by omega) (congrArg₂ _ (by omega) (congrArg₂ _ (by omega) (
    congrArg₂ _ (by omega) (congrArg₂ _ (by omega) (congrArg₂ _ (by omega) (
    congrArg₂ _ (by omega) (congrArg₂ _ (by omega) (congrArg₂ _ (by omega) (
    congrArg₂ _ (by omega) (
    congrArg₂ _ (by omega) rfl)))))))))))))))))))))))))

theorem MarshalIndices_lt (x i : Nat) (hi : i ∈ MarshalIndices x) : i < 32 := by
  rw [MarshalIndices_eq] at hi
  simp only [List.mem_cons, List.mem_nil_iff, or_false] at hi
  omega

theorem encodingAt_mem_alphabet : ∀ i, i < 32 → encodingAt i ∈ alphabet := by
  decide

/-- C4: `Marshal x` has exactly 26 characters, each index used into `Encoding`
is below 32, and so each character is one of the 32 symbols of the alphabet
(never the terminating NUL). -/
theorem C4_Marshal_alphabet (x : Nat) :
    (Marshal x).length = 26
    ∧ (∀ i ∈ MarshalIndices x, i < 32)
    ∧ (∀ c ∈ Marshal x, c ∈ alphabet ∧ c ≠ Char.ofNat 0) := by
  refine ⟨by simp [Marshal, MarshalTo, MarshalIndices], MarshalIndices_lt x, ?_⟩
  intro c hc
  simp only [Marshal, MarshalTo, List.mem_map] at hc
  obtain ⟨i, hi, rfl⟩ := hc
  have h := encodingAt_mem_alphabet i (MarshalIndices_lt x i hi)
  refine ⟨h, ?_⟩
  intro h0
  rw [h0] at h
  revert h
  decide

theorem digits32_chain (x : Nat) (hx : x < 2 ^ 128) :
    x / 2 ^ 125 % 8 = x / 2 ^ 125
    ∧ x / 2 ^ 125 * 32 + x / 2 ^ 120 % 32 = x / 2 ^ 120
    ∧ x / 2 ^ 120 * 32 + x / 2 ^ 115 % 32 = x / 2 ^ 115
    ∧ x / 2 ^ 115 * 32 + x / 2 ^ 110 % 32 = x / 2 ^ 110
    ∧ x / 2 ^ 110 * 32 + x / 2 ^ 105 % 32 = x / 2 ^ 105
    ∧ x / 2 ^ 105 * 32 + x / 2 ^ 100 % 32 = x / 2 ^ 100
    ∧ x / 2 ^ 100 * 32 + x / 2 ^ 95 % 32 = x / 2 ^ 95
    ∧ x / 2 ^ 95 * 32 + x / 2 ^ 90 % 32 = x / 2 ^ 90
    ∧ x / 2 ^ 90 * 32 + x / 2 ^ 85 % 32 = x / 2 ^ 85
    ∧ x / 2 ^ 85 * 32 + x / 2 ^ 80 % 32 = x / 2 ^ 80
    ∧ x / 2 ^ 80 * 32 + x / 2 ^ 75 % 32 = x / 2 ^ 75
    ∧ x / 2 ^ 75 * 32 + x / 2 ^ 70 % 32 = x / 2 ^ 70
    ∧ x / 2 ^ 70 * 32 + x / 2 ^ 65 % 32 = x / 2 ^ 65
    ∧ x / 2 ^ 65 * 32 + x / 2 ^ 60 % 32 = x / 2 ^ 60
    ∧ x / 2 ^ 60 * 32 + x / 2 ^ 55 % 32 = x / 2 ^ 55
    ∧ x / 2 ^ 55 * 32 + x / 2 ^ 50 % 32 = x / 2 ^ 50
    ∧ x / 2 ^ 50 * 32 + x / 2 ^ 45 % 32 = x / 2 ^ 45
    ∧ x / 2 ^ 45 * 32 + x / 2 ^ 40 % 32 = x / 2 ^ 40
    ∧ x / 2 ^ 40 * 32 + x / 2 ^ 35 % 32 = x / 2 ^ 35
    ∧ x / 2 ^ 35 * 32 + x / 2 ^ 30 % 32 = x / 2 ^ 30
    ∧ x / 2 ^ 30 * 32 + x / 2 ^ 25 % 32 = x / 2 ^ 25
    ∧ x / 2 ^ 25 * 32 + x / 2 ^ 20 % 32 = x / 2 ^ 20
    ∧ x / 2 ^ 20 * 32 + x / 2 ^ 15 % 32 = x / 2 ^ 15
    ∧ x / 2 ^ 15 * 32 + x / 2 ^ 10 % 32 = x / 2 ^ 10
    ∧ x / 2 ^ 10 * 32 + x / 2 ^ 5 % 32 = x / 2 ^ 5
    ∧ x / 2 ^ 5 * 32 + x % 32 = x := by
  refine ⟨?_, ?_, ?_, ?_, ?_, ?_, ?_, ?_, ?_, ?_, ?_, ?_, ?_, ?_, ?_, ?_, ?_, ?_, ?_, ?_,
    ?_, ?_, ?_, ?_, ?_, ?_⟩ <;> omega

theorem horner_MarshalIndices (x : Nat) (hx : x < 2 ^ 128) :
    horner 32 (MarshalIndices x) = x := by
  rw [MarshalIndices_eq]
  unfold horner
  simp only [List.foldl_cons, List.foldl_nil, Nat.zero_mul, Nat.zero_add]
  obtain ⟨e0, e1, e2, e3, e4, e5, e6, e7, e8, e9, e10, e11, e12, e13, e14, e15, e16, e17,
    e18, e19, e20, e21, e22, e23, e24, e25⟩ := digits32_chain x hx
  rw [e0, e1, e2, e3, e4, e5, e6, e7, e8, e9, e10, e11, e12, e13, e14, e15, e16, e17, e18, e19, e20,
    e21, e22, e23, e24, e25]

/-! ## Binary form -/

/-- `UnmarshalBinaryFrom` reads the sixteen bytes as a big-endian number. -/
theorem UnmarshalBinaryFrom_eq (b : List Nat) :
    UnmarshalBinaryFrom b
      = horner 256
        [byteAt b 0, byteAt b 1, byteAt b 2, byteAt b 3, byteAt b 4, byteAt b 5, byteAt b 6,
        byteAt b 7, byteAt b 8, byteAt b 9, byteAt b 10, byteAt b 11, byteAt b 12, byteAt b 13,
        byteAt b 14, byteAt b 15] := by
  unfold UnmarshalBinaryFrom horner
  simp only [List.foldl_cons, List.foldl_nil, Nat.zero_mul, Nat.zero_add, byteAt]
  have h0 := u8_lt (b.getD 0 0)
  generalize u8 (b.getD 0 0) = c0 at *
  have h1 := u8_lt (b.getD 1 0)
  generalize u8 (b.getD 1 0) = c1 at *
  have h2 := u8_lt (b.getD 2 0)
  generalize u8 (b.getD 2 0) = c2 at *
  have h3 := u8_lt (b.getD 3 0)
  generalize u8 (b.getD 3 0) = c3 at *
  have h4 := u8_lt (b.getD 4 0)
  generalize u8 (b.getD 4 0) = c4 at *
  have h5 := u8_lt (b.getD 5 0)
  generalize u8 (b.getD 5 0) = c5 at *
  have h6 := u8_lt (b.getD 6 0)
  generalize u8 (b.getD 6 0) = c6 at *
  have h7 := u8_lt (b.getD 7 0)
  generalize u8 (b.getD 7 0) = c7 at *
  have h8 := u8_lt (b.getD 8 0)
  generalize u8 (b.getD 8 0) = c8 at *
  have h9 := u8_lt (b.getD 9 0)
  generalize u8 (b.getD 9 0) = c9 at *
  have h10 := u8_lt (b.getD 10 0)
  generalize u8 (b.getD 10 0) = c10 at *
  have h11 := u8_lt (b.getD 11 0)
  generalize u8 (b.getD 11 0) = c11 at *
  have h12 := u8_lt (b.getD 12 0)
  generalize u8 (b.getD 12 0) = c12 at *
  have h13 := u8_lt (b.getD 13 0)
  generalize u8 (b.getD 13 0) = c13 at *
  have h14 := u8_lt (b.getD 14 0)
  generalize u8 (b.getD 14 0) = c14 at *
  have h15 := u8_lt (b.getD 15 0)
  generalize u8 (b.getD 15 0) = c15 at *
  simp (disch := omega) only [shl128_or_byte]

theorem byteAt_MarshalBinaryTo (x : Nat) :
    byteAt (MarshalBinaryTo x) 0 = x / 2 ^ 120 % 256
    ∧ byteAt (MarshalBinaryTo x) 1 = x / 2 ^ 112 % 256
    ∧ byteAt (MarshalBinaryTo x) 2 = x / 2 ^ 104 % 256
    ∧ byteAt (MarshalBinaryTo x) 3 = x / 2 ^ 96 % 256
    ∧ byteAt (MarshalBinaryTo x) 4 = x / 2 ^ 88 % 256
    ∧ byteAt (MarshalBinaryTo x) 5 = x / 2 ^ 80 % 256
    ∧ byteAt (MarshalBinaryTo x) 6 = x / 2 ^ 72 % 256
    ∧ byteAt (MarshalBinaryTo x) 7 = x / 2 ^ 64 % 256
    ∧ byteAt (MarshalBinaryTo x) 8 = x / 2 ^ 56 % 256
    ∧ byteAt (MarshalBinaryTo x) 9 = x / 2 ^ 48 % 256
    ∧ byteAt (MarshalBinaryTo x) 10 = x / 2 ^ 40 % 256
    ∧ byteAt (MarshalBinaryTo x) 11 = x / 2 ^ 32 % 256
    ∧ byteAt (MarshalBinaryTo x) 12 = x / 2 ^ 24 % 256
    ∧ byteAt (MarshalBinaryTo x) 13 = x / 2 ^ 16 % 256
    ∧ byteAt (MarshalBinaryTo x) 14 = x / 2 ^ 8 % 256
    ∧ byteAt (MarshalBinaryTo x) 15 = x % 256 := by
  simp only [byteAt, MarshalBinaryTo, List.getD_cons_zero, List.getD_cons_succ, u8_shr]
  simp [u8]

theorem bytes_chain (x : Nat) (hx : x < 2 ^ 128) :
    x / 2 ^ 120 % 256 = x / 2 ^ 120
    ∧ x / 2 ^ 120 * 256 + x / 2 ^ 112 % 256 = x / 2 ^ 112
    ∧ x / 2 ^ 112 * 256 + x / 2 ^ 104 % 256 = x / 2 ^ 104
    ∧ x / 2 ^ 104 * 256 + x / 2 ^ 96 % 256 = x / 2 ^ 96
    ∧ x / 2 ^ 96 * 256 + x / 2 ^ 88 % 256 = x / 2 ^ 88
    ∧ x / 2 ^ 88 * 256 + x / 2 ^ 80 % 256 = x / 2 ^ 80
    ∧ x / 2 ^ 80 * 256 + x / 2 ^ 72 % 256 = x / 2 ^ 72
    ∧ x / 2 ^ 72 * 256 + x / 2 ^ 64 % 256 = x / 2 ^ 64
    ∧ x / 2 ^ 64 * 256 + x / 2 ^ 56 % 256 = x / 2 ^ 56
    ∧ x / 2 ^ 56 * 256 + x / 2 ^ 48 % 256 = x / 2 ^ 48
    ∧ x / 2 ^ 48 * 256 + x / 2 ^ 40 % 256 = x / 2 ^ 40
    ∧ x / 2 ^ 40 * 256 + x / 2 ^ 32 % 256 = x / 2 ^ 32
    ∧ x / 2 ^ 32 * 256 + x / 2 ^ 24 % 256 = x / 2 ^ 24
    ∧ x / 2 ^ 24 * 256 + x / 2 ^ 16 % 256 = x / 2 ^ 16
    ∧ x / 2 ^ 16 * 256 + x / 2 ^ 8 % 256 = x / 2 ^ 8
    ∧ x / 2 ^ 8 * 256 + x % 256 = x := by
  refine ⟨?_, ?_, ?_, ?_, ?_, ?_, ?_, ?_, ?_, ?_, ?_, ?_, ?_, ?_, ?_, ?_⟩ <;> omega

theorem UnmarshalBinaryFrom_MarshalBinaryTo (x : Nat) (hx : x < 2 ^ 128) :
    UnmarshalBinaryFrom (MarshalBinaryTo x) = x := by
  rw [UnmarshalBinaryFrom_eq]
  obtain ⟨b0, b1, b2, b3, b4, b5, b6, b7, b8, b9, b10, b11, b12, b13, b14, b15⟩ :=
    byteAt_MarshalBinaryTo x
  rw [b0, b1, b2, b3, b4, b5, b6, b7, b8, b9, b10, b11, b12, b13, b14, b15]
  unfold horner
  simp only [List.foldl_cons, List.foldl_nil, Nat.zero_mul, Nat.zero_add]
  obtain ⟨e0, e1, e2, e3, e4, e5, e6, e7, e8, e9, e10, e11, e12, e13, e14, e15⟩ :=
    bytes_chain x hx
  rw [e0, e1, e2, e3, e4, e5, e6, e7, e8, e9, e10, e11, e12, e13, e14, e15]

/-- C2: `UnmarshalBinary (MarshalBinary x)` succeeds and returns `x`, for every
128-bit identifier `x`. -/
theorem C2_binary_round_trip (x : Nat) (hx : x < 2 ^ 128) :
    UnmarshalBinary (MarshalBinary x) = Except.ok x := by
  have hl : (MarshalBinary x).length = BIN_SIZE := rfl
  have ht : (MarshalBinary x).take BIN_SIZE = MarshalBinaryTo x := rfl
  unfold UnmarshalBinary
  rw [if_neg (by rw [hl]; exact fun h => h rfl), ht, UnmarshalBinaryFrom_MarshalBinaryTo x hx]

/-- C2 at the identifier of the test suite and at the largest identifier. -/
theorem C2_binary_round_trip_witness :
    (Create 1484581420000 (fun _ => 4) < 2 ^ 128
      ∧ UnmarshalBinary (MarshalBinary (Create 1484581420000 (fun _ => 4)))
        = Except.ok (Create 1484581420000 (fun _ => 4)))
    ∧ ((2 ^ 128 - 1 < 2 ^ 128)
      ∧ UnmarshalBinary (MarshalBinary (2 ^ 128 - 1)) = Except.ok (2 ^ 128 - 1)) :=
  ⟨⟨by decide, C2_binary_round_trip _ (by decide)⟩,
    ⟨by decide, C2_binary_round_trip _ (by decide)⟩⟩

theorem horner_MarshalBinary (x : Nat) (hx : x < 2 ^ 128) : horner 256 (MarshalBinary x) = x := by
  have h0 : u8 x = x % 256 := rfl
  unfold horner MarshalBinary MarshalBinaryTo
  simp only [List.foldl_cons, List.foldl_nil, Nat.zero_mul, Nat.zero_add, u8_shr, h0]
  obtain ⟨e0, e1, e2, e3, e4, e5, e6, e7, e8, e9, e10, e11, e12, e13, e14, e15⟩ :=
    bytes_chain x hx
  rw [e0, e1, e2, e3, e4, e5, e6, e7, e8, e9, e10, e11, e12, e13, e14, e15]

theorem MarshalBinary_lt (x d : Nat) (hd : d ∈ MarshalBinary x) : d < 256 := by
  simp only [MarshalBinary, MarshalBinaryTo, List.mem_cons, List.mem_nil_iff, or_false, u8] at hd
  omega

/-! ## Text form: the accumulator of `UnmarshalFrom` -/

theorem lor_absorb (a h j : Nat) (hh : a % 2 ^ j = h) : a ||| h = a := by
  subst hh
  apply Nat.eq_of_testBit_eq
  intro i
  simp only [Nat.testBit_or, Nat.testBit_mod_two_pow]
  cases a.testBit i <;> simp

theorem shl_lor_distrib (a b k : Nat) : (a ||| b) <<< k = a <<< k ||| b <<< k := by
  apply Nat.eq_of_testBit_eq
  intro i
  simp only [Nat.testBit_or, Nat.testBit_shiftLeft]
  cases decide (i ≥ k) <;> simp

/-- One step of the accumulator of `UnmarshalFrom`: the bits of `E` above bit 7
are already the low bits of the accumulator, so OR-ing them in changes
nothing. -/
theorem acc_step (acc E j : Nat) (hj : j ≤ 120) (h : acc % 2 ^ j = E / 256) :
    shl128 acc 8 ||| E = (acc % 2 ^ 120) * 256 + E % 256 := by
  rw [shl128_eq _ _ (by norm_num)]
  have hA : (acc % 2 ^ 120) % 2 ^ j = E / 256 := by
    rw [Nat.mod_mod_of_dvd _ (Nat.pow_dvd_pow 2 hj)]; exact h
  have hL : E % 256 < 2 ^ 8 := Nat.mod_lt _ (by norm_num)
  have hE : E = (E / 256) <<< 8 ||| E % 256 := by
    rw [Nat.shiftLeft_eq, lor_eq_add _ _ 8 (Nat.mul_mod_left _ _) hL]
    have := Nat.div_add_mod E 256
    omega
  generalize acc % 2 ^ 120 = A at *
  show A * 2 ^ 8 ||| E = A * 256 + E % 256
  rw [← Nat.shiftLeft_eq]
  conv_lhs => rw [hE]
  rw [← Nat.or_assoc, ← shl_lor_distrib, lor_absorb A _ j hA, Nat.shiftLeft_eq,
    lor_eq_add _ _ 8 (Nat.mul_mod_left _ _) hL]

theorem eA (p q : Nat) (hq : q < 32) : (p <<< 3) ||| (q >>> 2) = p * 8 + q / 4 := by
  rw [Nat.shiftLeft_eq, Nat.shiftRight_eq_div_pow, lor_eq_add _ _ 3 (Nat.mul_mod_left _ _)
    (by omega)]
  norm_num
theorem eB (p q r : Nat) (hq : q < 32) (hr : r < 32) :
    (p <<< 6) ||| (q <<< 1) ||| (r >>> 4) = p * 64 + q * 2 + r / 16 := by
  rw [Nat.shiftLeft_eq, Nat.shiftLeft_eq, Nat.shiftRight_eq_div_pow,
    lor_eq_add _ _ 6 (Nat.mul_mod_left _ _) (by omega),
    lor_eq_add _ _ 1 (by omega) (by omega)]
  norm_num
theorem eC (p q : Nat) (hq : q < 32) : (p <<< 4) ||| (q >>> 1) = p * 16 + q / 2 := by
  rw [Nat.shiftLeft_eq, Nat.shiftRight_eq_div_pow, lor_eq_add _ _ 4 (Nat.mul_mod_left _ _)
    (by omega)]
  norm_num
theorem eD (p q r : Nat) (hq : q < 32) (hr : r < 32) :
    (p <<< 7) ||| (q <<< 2) ||| (r >>> 3) = p * 128 + q * 4 + r / 8 := by
  rw [Nat.shiftLeft_eq, Nat.shiftLeft_eq, Nat.shiftRight_eq_div_pow,
    lor_eq_add _ _ 7 (Nat.mul_mod_left _ _) (by omega),
    lor_eq_add _ _ 2 (by omega) (by omega)]
  norm_num
theorem eE (p q : Nat) (hq : q < 32) : (p <<< 5) ||| q = p * 32 + q := by
  rw [Nat.shiftLeft_eq, lor_eq_add _ _ 5 (Nat.mul_mod_left _ _) (by omega)]
  norm_num


/-- Five steps of the accumulator of `UnmarshalFrom` take in eight digits: the
accumulator moves up by 40 bits and the digits fill them. -/
theorem acc_block (acc d0 d1 d2 d3 d4 d5 d6 d7 : Nat)
    (h0 : d0 < 32) (h1 : d1 < 32) (h2 : d2 < 32) (h3 : d3 < 32) (h4 : d4 < 32)
    (h5 : d5 < 32) (h6 : d6 < 32) (h7 : d7 < 32) :
    shl128 (shl128 (shl128 (shl128 (shl128 acc 8
        ||| (d0 * 8 + d1 / 4)) 8
        ||| (d1 * 64 + d2 * 2 + d3 / 16)) 8
        ||| (d3 * 16 + d4 / 2)) 8
        ||| (d4 * 128 + d5 * 4 + d6 / 8)) 8
        ||| (d6 * 32 + d7)
      = (acc * 2 ^ 40
          + (((((((d0 * 32 + d1) * 32 + d2) * 32 + d3) * 32 + d4) * 32 + d5) * 32 + d6) * 32
            + d7)) % 2 ^ 128 := by
  rw [acc_step acc (d0 * 8 + d1 / 4) 0 (by norm_num) (by omega)]
  generalize hc1 : acc % 2 ^ 120 * 256 + (d0 * 8 + d1 / 4) % 256 = c1
  rw [acc_step c1 (d1 * 64 + d2 * 2 + d3 / 16) 3 (by norm_num) (by omega)]
  generalize hc2 : c1 % 2 ^ 120 * 256 + (d1 * 64 + d2 * 2 + d3 / 16) % 256 = c2
  rw [acc_step c2 (d3 * 16 + d4 / 2) 1 (by norm_num) (by omega)]
  generalize hc3 : c2 % 2 ^ 120 * 256 + (d3 * 16 + d4 / 2) % 256 = c3
  rw [acc_step c3 (d4 * 128 + d5 * 4 + d6 / 8) 4 (by norm_num) (by omega)]
  generalize hc4 : c3 % 2 ^ 120 * 256 + (d4 * 128 + d5 * 4 + d6 / 8) % 256 = c4
  rw [acc_step c4 (d6 * 32 + d7) 2 (by norm_num) (by omega)]
  omega

/-- On table values below 32 the accumulator of `UnmarshalFrom` is the base-32
number with these digits, reduced modulo `2 ^ 128`. -/
theorem unmarshalValue_eq (v : Nat → Nat) (hv : ∀ k, k < 26 → v k < 32) :
    unmarshalValue v
      = horner 32
        [v 0, v 1, v 2, v 3, v 4, v 5, v 6, v 7, v 8, v 9, v 10, v 11, v 12, v 13, v 14, v 15,
        v 16, v 17, v 18, v 19, v 20, v 21, v 22, v 23, v 24, v 25] % 2 ^ 128 := by
  have h0 := hv 0 (by norm_num)
  have h1 := hv 1 (by norm_num)
  have h2 := hv 2 (by norm_num)
  have h3 := hv 3 (by norm_num)
  have h4 := hv 4 (by norm_num)
  have h5 := hv 5 (by norm_num)
  have h6 := hv 6 (by norm_num)
  have h7 := hv 7 (by norm_num)
  have h8 := hv 8 (by norm_num)
  have h9 := hv 9 (by norm_num)
  have h10 := hv 10 (by norm_num)
  have h11 := hv 11 (by norm_num)
  have h12 := hv 12 (by norm_num)
  have h13 := hv 13 (by norm_num)
  have h14 := hv 14 (by norm_num)
  have h15 := hv 15 (by norm_num)
  have h16 := hv 16 (by norm_num)
  have h17 := hv 17 (by norm_num)
  have h18 := hv 18 (by norm_num)
  have h19 := hv 19 (by norm_num)
  have h20 := hv 20 (by norm_num)
  have h21 := hv 21 (by norm_num)
  have h22 := hv 22 (by norm_num)
  have h23 := hv 23 (by norm_num)
  have h24 := hv 24 (by norm_num)
  have h25 := hv 25 (by norm_num)
  unfold unmarshalValue horner
  simp only [List.foldl_cons, List.foldl_nil, Nat.zero_mul, Nat.zero_add]
  rw [eE (v 0) (v 1) h1, eA (v 2) (v 3) h3, eB (v 3) (v 4) (v 5) h4 h5, eC (v 5) (v 6) h6,
    eD (v 6) (v 7) (v 8) h7 h8, eE (v 8) (v 9) h9, eA (v 10) (v 11) h11,
    eB (v 11) (v 12) (v 13) h12 h13, eC (v 13) (v 14) h14, eD (v 14) (v 15) (v 16) h15 h16,
    eE (v 16) (v 17) h17, eA (v 18) (v 19) h19, eB (v 19) (v 20) (v 21) h20 h21,
    eC (v 21) (v 22) h22, eD (v 22) (v 23) (v 24) h23 h24, eE (v 24) (v 25) h25]
  clear hv
  generalize v 0 = a0 at *
  generalize v 1 = a1 at *
  generalize v 2 = a2 at *
  generalize v 3 = a3 at *
  generalize v 4 = a4 at *
  generalize v 5 = a5 at *
  generalize v 6 = a6 at *
  generalize v 7 = a7 at *
  generalize v 8 = a8 at *
  generalize v 9 = a9 at *
  generalize v 10 = a10 at *
  generalize v 11 = a11 at *
  generalize v 12 = a12 at *
  generalize v 13 = a13 at *
  generalize v 14 = a14 at *
  generalize v 15 = a15 at *
  generalize v 16 = a16 at *
  generalize v 17 = a17 at *
  generalize v 18 = a18 at *
  generalize v 19 = a19 at *
  generalize v 20 = a20 at *
  generalize v 21 = a21 at *
  generalize v 22 = a22 at *
  generalize v 23 = a23 at *
  generalize v 24 = a24 at *
  generalize v 25 = a25 at *
  rw [acc_block (a0 * 32 + a1) a2 a3 a4 a5 a6 a7 a8 a9
    h2 h3 h4 h5 h6 h7 h8 h9]
  generalize hc1 : ((a0 * 32 + a1) * 2 ^ 40
    + (((((((a2 * 32 + a3) * 32 + a4) * 32 + a5) * 32 + a6) * 32 + a7) * 32 + a8) * 32
      + a9)) % 2 ^ 128 = c1
  rw [acc_block c1 a10 a11 a12 a13 a14 a15 a16 a17
    h10 h11 h12 h13 h14 h15 h16 h17]
  generalize hc2 : (c1 * 2 ^ 40
    + (((((((a10 * 32 + a11) * 32 + a12) * 32 + a13) * 32 + a14) * 32 + a15) * 32 + a16) * 32
      + a17)) % 2 ^ 128 = c2
  rw [acc_block c2 a18 a19 a20 a21 a22 a23 a24 a25
    h18 h19 h20 h21 h22 h23 h24 h25]
  omega

/-- When the string has 26 characters and the 26 table reads succeed with the
values `v k`, `UnmarshalFrom` returns the accumulator built from them. -/
theorem UnmarshalFrom_of_values (sc : Bool) (str : List Char) (v : Nat → Nat)
    (hl : str.length = 26) (hv : ∀ k, k < 26 → decChar sc str k = Except.ok (v k)) :
    UnmarshalFrom sc str = Except.ok (unmarshalValue v) := by
  have h0 := hv 0 (by norm_num)
  have h1 := hv 1 (by norm_num)
  have h2 := hv 2 (by norm_num)
  have h3 := hv 3 (by norm_num)
  have h4 := hv 4 (by norm_num)
  have h5 := hv 5 (by norm_num)
  have h6 := hv 6 (by norm_num)
  have h7 := hv 7 (by norm_num)
  have h8 := hv 8 (by norm_num)
  have h9 := hv 9 (by norm_num)
  have h10 := hv 10 (by norm_num)
  have h11 := hv 11 (by norm_num)
  have h12 := hv 12 (by norm_num)
  have h13 := hv 13 (by norm_num)
  have h14 := hv 14 (by norm_num)
  have h15 := hv 15 (by norm_num)
  have h16 := hv 16 (by norm_num)
  have h17 := hv 17 (by norm_num)
  have h18 := hv 18 (by norm_num)
  have h19 := hv 19 (by norm_num)
  have h20 := hv 20 (by norm_num)
  have h21 := hv 21 (by norm_num)
  have h22 := hv 22 (by norm_num)
  have h23 := hv 23 (by norm_num)
  have h24 := hv 24 (by norm_num)
  have h25 := hv 25 (by norm_num)
  unfold UnmarshalFrom
  simp only [hl, STR_SIZE, ne_eq, not_true_eq_false, ↓reduceIte,
    h0, h1, h2, h3, h4, h5, h6, h7, h8, h9, h10, h11, h12, h13, h14, h15, h16, h17, h18, h19, h20,
    h21, h22, h23, h24, h25]
  rfl

theorem decAt_encodingAt (sc : Bool) (i : Nat) (hi : i < 32) :
    decAt (charToInt sc (encodingAt i)) = Except.ok i := by
  interval_cases i <;> cases sc <;> rfl

theorem decChar_Marshal (sc : Bool) (x k : Nat) (hk : k < 26) :
    decChar sc (Marshal x) k = Except.ok ((MarshalIndices x).getD k 0) := by
  have hm : (MarshalIndices x).getD k 0 ∈ MarshalIndices x := by
    interval_cases k <;> simp [MarshalIndices]
  have hg : (Marshal x).getD k (Char.ofNat 0) = encodingAt ((MarshalIndices x).getD k 0) := by
    interval_cases k <;> rfl
  unfold decChar
  rw [hg, decAt_encodingAt sc _ (MarshalIndices_lt x _ hm)]

/-- C1: `Unmarshal (Marshal x)` succeeds and returns `x`, for every 128-bit
identifier `x`, whether plain `char` is signed or not. -/
theorem C1_text_round_trip (sc : Bool) (x : Nat) (hx : x < 2 ^ 128) :
    Unmarshal sc (Marshal x) = Except.ok x := by
  have hl : (Marshal x).length = 26 := by simp [Marshal, MarshalTo, MarshalIndices]
  have hv : ∀ k, k < 26 → (MarshalIndices x).getD k 0 < 32 := by
    intro k hk
    apply MarshalIndices_lt x
    interval_cases k <;> simp [MarshalIndices]
  unfold Unmarshal
  rw [UnmarshalFrom_of_values sc (Marshal x) (fun k => (MarshalIndices x).getD k 0) hl
    (decChar_Marshal sc x), unmarshalValue_eq _ hv]
  show Except.ok (horner 32 (MarshalIndices x) % 2 ^ 128) = Except.ok x
  rw [horner_MarshalIndices x hx, Nat.mod_eq_of_lt hx]

/-- C1 at the identifier of the test suite, on a platform with signed `char`,
and at the largest identifier, on a platform with unsigned `char`. -/
theorem C1_text_round_trip_witness :
    (Create 1484581420000 (fun _ => 4) < 2 ^ 128
      ∧ Unmarshal true (Marshal (Create 1484581420000 (fun _ => 4)))
        = Except.ok (Create 1484581420000 (fun _ => 4)))
    ∧ (2 ^ 128 - 1 < 2 ^ 128
      ∧ Unmarshal false (Marshal (2 ^ 128 - 1)) = Except.ok (2 ^ 128 - 1)) :=
  ⟨⟨by decide, C1_text_round_trip _ _ (by decide)⟩,
    ⟨by decide, C1_text_round_trip _ _ (by decide)⟩⟩

/-! ## Order -/

set_option maxRecDepth 100000 in
theorem encodingAt_step :
    ∀ i, i < 31 → (encodingAt i).toNat < (encodingAt (i + 1)).toNat := by
  decide

theorem encodingAt_strictMono :
    ∀ i, i < 32 → ∀ j, j < 32 → i < j → (encodingAt i).toNat < (encodingAt j).toNat := by
  intro i hi j hj hij
  induction j with
  | zero => omega
  | succ j ih =>
    have hs := encodingAt_step j (by omega)
    by_cases h : i = j
    · subst h
      exact hs
    · have := ih (by omega) (by omega)
      omega

/-- C3: for 128-bit identifiers `a` and `b`, `CompareULIDs a b` is the three-way
byte-wise lexicographic comparison of `MarshalBinary a` with `MarshalBinary b`,
and the three-way lexicographic comparison by character code of `Marshal a`
with `Marshal b` (all three take the values `-1`, `0`, `1`, so equal values
is agreement in sign). -/
theorem C3_sort_preservation (a b : Nat) (ha : a < 2 ^ 128) (hb : b < 2 ^ 128) :
    CompareULIDs a b = lexCompare (MarshalBinary a) (MarshalBinary b)
    ∧ CompareULIDs a b = lexCompare (codes (Marshal a)) (codes (Marshal b)) := by
  constructor
  · have hlen : (MarshalBinary a).length = (MarshalBinary b).length := by
      simp [MarshalBinary, MarshalBinaryTo]
    have h := lexCompare_eq_CompareULIDs 256 (MarshalBinary a) (MarshalBinary b) hlen
      (MarshalBinary_lt a) (MarshalBinary_lt b)
    rw [horner_MarshalBinary a ha, horner_MarshalBinary b hb] at h
    exact h.symm
  · have hc : ∀ x,
        codes (Marshal x) = (MarshalIndices x).map (fun i => (encodingAt i).toNat) := by
      intro x
      simp [codes, Marshal, MarshalTo, List.map_map, Function.comp_def]
    have hlen : (MarshalIndices a).length = (MarshalIndices b).length := by
      simp [MarshalIndices]
    have h := lexCompare_eq_CompareULIDs 32 (MarshalIndices a) (MarshalIndices b) hlen
      (MarshalIndices_lt a) (MarshalIndices_lt b)
    rw [horner_MarshalIndices a ha, horner_MarshalIndices b hb] at h
    rw [hc a, hc b, lexCompare_map _ 32 encodingAt_strictMono _ _ (MarshalIndices_lt a)
      (MarshalIndices_lt b)]
    exact h.symm

/-- C3 at two identifiers that differ in the timestamp only. -/
theorem C3_sort_preservation_witness :
    Create 1484581420000 (fun _ => 4) < 2 ^ 128 ∧ Create 1484581421000 (fun _ => 4) < 2 ^ 128
    ∧ CompareULIDs (Create 1484581420000 (fun _ => 4)) (Create 1484581421000 (fun _ => 4))
      = lexCompare (MarshalBinary (Create 1484581420000 (fun _ => 4)))
          (MarshalBinary (Create 1484581421000 (fun _ => 4)))
    ∧ CompareULIDs (Create 1484581420000 (fun _ => 4)) (Create 1484581421000 (fun _ => 4))
      = lexCompare (codes (Marshal (Create 1484581420000 (fun _ => 4))))
          (codes (Marshal (Create 1484581421000 (fun _ => 4)))) :=
  ⟨by decide, by decide, C3_sort_preservation _ _ (by decide) (by decide)⟩

/-! ## Known vectors -/

/-- C11: decoding `"01ARYZ6S410000000000000000"` gives the identifier that
`EncodeTime` makes of millisecond timestamp 1469918176385 on a zero
identifier. -/
theorem C11_alizain_vector (sc : Bool) :
    Unmarshal sc "01ARYZ6S410000000000000000".toList
      = Except.ok (EncodeTime 1469918176385 0) := by
  cases sc <;> rfl

/-- The vector of `TEST(Unmarshal, 1)`: the string decodes to the identifier
created at millisecond timestamp 1484581420 with every entropy byte 4. -/
theorem Unmarshal_test_vector (sc : Bool) :
    Unmarshal sc "0001C7STHC0G2081040G208104".toList
      = Except.ok (Create 1484581420 (fun _ => 4)) := by
  cases sc <;> rfl

/-- C12 as stated fails: `"0001C7STHC0G2081040G208104"` does not decode to the
identifier created at millisecond timestamp 1484581420000 with every entropy
byte 4, on either kind of platform. -/
theorem C12_vector_counterexample :
    Unmarshal true "0001C7STHC0G2081040G208104".toList
        ≠ Except.ok (Create 1484581420000 (fun _ => 4))
    ∧ Unmarshal false "0001C7STHC0G2081040G208104".toList
        ≠ Except.ok (Create 1484581420000 (fun _ => 4)) := by
  rw [Unmarshal_test_vector true, Unmarshal_test_vector false]
  have h : Create 1484581420 (fun _ => 4) ≠ Create 1484581420000 (fun _ => 4) := by decide
  exact ⟨fun e => h (Except.ok.inj e), fun e => h (Except.ok.inj e)⟩

/-- C12, amended: `"0001C7STHC0G2081040G208104"` decodes to the identifier
created at millisecond timestamp 1484581420 (the number of `TEST(Unmarshal, 1)`,
read as milliseconds) with every entropy byte 4, and its text form is that
string. -/
theorem C12_vector_amended (sc : Bool) :
    Unmarshal sc "0001C7STHC0G2081040G208104".toList
      = Except.ok (Create 1484581420 (fun _ => 4))
    ∧ Marshal (Create 1484581420 (fun _ => 4)) = "0001C7STHC0G2081040G208104".toList := by
  refine ⟨?_, by decide⟩
  cases sc <;> rfl

/-! ## Lengths -/

/-- C13: a text input whose length is not 26 makes `Unmarshal` and
`UnmarshalFrom` fail on the size assertion, whatever its characters are, and a
byte buffer whose length is not 16 makes `UnmarshalBinary` fail on the size
assertion; no identifier is returned. -/
theorem C13_bad_length (sc : Bool) (str : List Char) (b : List Nat)
    (hs : str.length ≠ 26) (hb : b.length ≠ 16) :
    UnmarshalFrom sc str = Except.error Failure.assertion
    ∧ Unmarshal sc str = Except.error Failure.assertion
    ∧ UnmarshalBinary b = Except.error Failure.assertion := by
  have h1 : UnmarshalFrom sc str = Except.error Failure.assertion := by
    unfold UnmarshalFrom
    simp only [STR_SIZE, ne_eq, hs, not_false_eq_true, ↓reduceIte]
    rfl
  refine ⟨h1, h1, ?_⟩
  unfold UnmarshalBinary
  simp only [BIN_SIZE, ne_eq, hb, not_false_eq_true, ↓reduceIte]

/-- C13 at a text of 25 characters and a buffer of 17 bytes. -/
theorem C13_bad_length_witness :
    ("0001C7STHC0G2081040G20810".toList.length ≠ 26
      ∧ (List.replicate 17 4).length ≠ 16)
    ∧ UnmarshalFrom true "0001C7STHC0G2081040G20810".toList = Except.error Failure.assertion
    ∧ Unmarshal true "0001C7STHC0G2081040G20810".toList = Except.error Failure.assertion
    ∧ UnmarshalBinary (List.replicate 17 4) = Except.error Failure.assertion :=
  ⟨⟨by decide, by decide⟩,
    C13_bad_length true "0001C7STHC0G2081040G20810".toList (List.replicate 17 4)
      (by decide) (by decide)⟩

/-! ## Encode and Create -/

/-- C18: the result of `Encode` does not depend on what the identifier held
before: it is `Create` of the same timestamp and entropy bytes. -/
theorem C18_Encode_eq_Create (t : Int) (rng : Nat → Nat) (u : Nat) :
    Encode t rng u = Create t rng := by
  unfold Create
  simp only [Encode_eq]

/-! ## Binary layout -/

theorem entropy_bytes_chain (x : Nat) :
    x / 2 ^ 72 % 256 = x / 2 ^ 72 % 2 ^ 8
    ∧ x / 2 ^ 72 % 2 ^ 8 * 256 + x / 2 ^ 64 % 256 = x / 2 ^ 64 % 2 ^ 16
    ∧ x / 2 ^ 64 % 2 ^ 16 * 256 + x / 2 ^ 56 % 256 = x / 2 ^ 56 % 2 ^ 24
    ∧ x / 2 ^ 56 % 2 ^ 24 * 256 + x / 2 ^ 48 % 256 = x / 2 ^ 48 % 2 ^ 32
    ∧ x / 2 ^ 48 % 2 ^ 32 * 256 + x / 2 ^ 40 % 256 = x / 2 ^ 40 % 2 ^ 40
    ∧ x / 2 ^ 40 % 2 ^ 40 * 256 + x / 2 ^ 32 % 256 = x / 2 ^ 32 % 2 ^ 48
    ∧ x / 2 ^ 32 % 2 ^ 48 * 256 + x / 2 ^ 24 % 256 = x / 2 ^ 24 % 2 ^ 56
    ∧ x / 2 ^ 24 % 2 ^ 56 * 256 + x / 2 ^ 16 % 256 = x / 2 ^ 16 % 2 ^ 64
    ∧ x / 2 ^ 16 % 2 ^ 64 * 256 + x / 2 ^ 8 % 256 = x / 2 ^ 8 % 2 ^ 72
    ∧ x / 2 ^ 8 % 2 ^ 72 * 256 + x % 256 = x % 2 ^ 80 := by
  refine ⟨?_, ?_, ?_, ?_, ?_, ?_, ?_, ?_, ?_, ?_⟩ <;> omega

/-- C17 as stated fails where the system clock counts nanoseconds: for the
identifier `2 ^ 128 - 1` the first six bytes are the big-endian number
281474976710655, and `Time` is the time point of 4773815605011725760 ticks,
4773815605011 milliseconds. -/
theorem C17_binary_layout_counterexample :
    (2 ^ 128 - 1 : Nat) < 2 ^ 128
    ∧ (MarshalBinary (2 ^ 128 - 1)).take 6 = [255, 255, 255, 255, 255, 255]
    ∧ horner 256 ((MarshalBinary (2 ^ 128 - 1)).take 6) = 281474976710655
    ∧ Time 1000000 (2 ^ 128 - 1) = 4773815605011725760
    ∧ Time 1000000 (2 ^ 128 - 1)
        ≠ ((horner 256 ((MarshalBinary (2 ^ 128 - 1)).take 6) : Nat) : Int) * 1000000
    ∧ Time 1000000 (2 ^ 128 - 1) / 1000000 = 4773815605011 := by
  refine ⟨by decide, by decide, by decide, by decide, by decide, by decide⟩

/-- C17, amended: `MarshalBinary x` has exactly 16 bytes, byte `i` is
`(x >> (120 - 8 * i)) mod 256`, bytes 0-5 are the big-endian 48-bit timestamp
field, bits 127-80 of `x`, and bytes 6-15 the big-endian entropy, bits 79-0 of
`x`; the timestamp field is `Time x` in milliseconds wherever its count of
ticks fits the 64-bit count of the system clock. -/
theorem C17_binary_layout_amended (x : Nat) :
    (MarshalBinary x).length = 16
    ∧ (∀ i, i < 16 → (MarshalBinary x).getD i 0 = (x >>> (120 - 8 * i)) % 256)
    ∧ horner 256 ((MarshalBinary x).take 6) = bitsOf x 127 80
    ∧ horner 256 ((MarshalBinary x).drop 6) = bitsOf x 79 0
    ∧ (∀ ticksPerMs : Nat, 0 < ticksPerMs →
        ((bitsOf x 127 80 : Nat) : Int) * (ticksPerMs : Int) < 2 ^ 63 →
        Time ticksPerMs x
            = ((horner 256 ((MarshalBinary x).take 6) : Nat) : Int) * (ticksPerMs : Int)
          ∧ Time ticksPerMs x / (ticksPerMs : Int)
            = ((horner 256 ((MarshalBinary x).take 6) : Nat) : Int)) := by
  have h0 : u8 x = x % 256 := rfl
  have h6 : horner 256 ((MarshalBinary x).take 6) = bitsOf x 127 80 := by
    simp only [MarshalBinary, MarshalBinaryTo, List.take_succ_cons, List.take_zero, horner,
      List.foldl_cons, List.foldl_nil, Nat.zero_mul, Nat.zero_add, u8_shr, bitsOf]
    omega
  refine ⟨rfl, ?_, h6, ?_, ?_⟩
  · intro i hi
    interval_cases i <;> rfl
  · simp only [MarshalBinary, MarshalBinaryTo, List.drop_succ_cons, List.drop_zero, horner,
      List.foldl_cons, List.foldl_nil, Nat.zero_mul, Nat.zero_add, u8_shr, h0, bitsOf]
    obtain ⟨e0, e1, e2, e3, e4, e5, e6, e7, e8, e9⟩ := entropy_bytes_chain x
    rw [e0, e1, e2, e3, e4, e5, e6, e7, e8, e9]
    norm_num
  · intro ticksPerMs hpos hfit
    have hne : (ticksPerMs : Int) ≠ 0 := by omega
    have hb : bitsOf x 127 80 = x / 2 ^ 80 % 2 ^ 48 := rfl
    have hT : Time ticksPerMs x = ((bitsOf x 127 80 : Nat) : Int) * (ticksPerMs : Int) := by
      rw [Time_eq, ← hb]
      exact wrapInt64_of_range _ (Int.mul_nonneg (Int.ofNat_nonneg _) (Int.ofNat_nonneg _)) hfit
    rw [h6, hT]
    exact ⟨rfl, Int.mul_ediv_cancel _ hne⟩

/-! ## Entropy strategies -/

/-- When `RAND_bytes` returns 1, `EncodeEntropyRand` is `EncodeEntropy` on the
bytes of the buffer and nothing is thrown. -/
theorem EncodeEntropyRand_ok (buffer : Nat → Nat) (u : Nat) :
    EncodeEntropyRand 1 buffer u = { ulid := EncodeEntropy buffer u, thrown := none } := by
  unfold EncodeEntropyRand EncodeEntropy
  simp only [ne_eq, not_true_eq_false, ↓reduceIte]

/-- When `RAND_bytes` returns something else than 1, `EncodeEntropyRand`
throws after it has cleared bits 79-0 of the identifier. -/
theorem EncodeEntropyRand_fail (ret : Int) (buffer : Nat → Nat) (u : Nat) (hret : ret ≠ 1) :
    EncodeEntropyRand ret buffer u
      = { ulid := (u / 2 ^ 80 % 2 ^ 48) * 2 ^ 80, thrown := some Failure.runtimeError } := by
  unfold EncodeEntropyRand
  simp only [ne_eq, hret, not_false_eq_true, ↓reduceIte]
  rw [shl128_eq _ _ (by norm_num), Nat.shiftRight_eq_div_pow]

/-- C16: on the same ten bytes, `EncodeEntropy` (bytes returned by the
callback in call order), `EncodeEntropyRand` (bytes of the filled buffer) and
`EncodeEntropyMt19937` (bytes drawn in order) turn an identifier into the same
identifier; so after the same timestamp they give equal identifiers. -/
theorem C16_entropy_strategies_agree (b : Nat → Nat) (u : Nat) (t : Int) :
    (EncodeEntropyRand 1 b u).thrown = none
    ∧ (EncodeEntropyRand 1 b u).ulid = EncodeEntropy b u
    ∧ EncodeEntropyMt19937 b u = EncodeEntropy b u
    ∧ (EncodeEntropyRand 1 b (EncodeTime t 0)).ulid = Encode t b 0
    ∧ EncodeEntropyMt19937 b (EncodeTime t 0) = Encode t b 0 := by
  have h1 : ∀ v, EncodeEntropyMt19937 b v = EncodeEntropy b v := fun _ => rfl
  rw [EncodeEntropyRand_ok, EncodeEntropyRand_ok, h1, h1]
  exact ⟨rfl, rfl, rfl, rfl, rfl⟩

/-- C15 as stated fails: with `RAND_bytes` returning 0, `EncodeEntropyRand`
throws and leaves an identifier whose bits were all set with bits 79-0
cleared, and `EncodeNowRand` throws and leaves a zero identifier with the
timestamp of the call written and no entropy. -/
theorem C15_entropy_failure_counterexample :
    (EncodeEntropyRand 0 (fun _ => 0) (2 ^ 128 - 1)).thrown = some Failure.runtimeError
    ∧ (EncodeEntropyRand 0 (fun _ => 0) (2 ^ 128 - 1)).ulid = 2 ^ 128 - 2 ^ 80
    ∧ (EncodeEntropyRand 0 (fun _ => 0) (2 ^ 128 - 1)).ulid ≠ 2 ^ 128 - 1
    ∧ (EncodeNowRand 1484581420 0 (fun _ => 0) 0).thrown = some Failure.runtimeError
    ∧ (EncodeNowRand 1484581420 0 (fun _ => 0) 0).ulid = 1484581420000 * 2 ^ 80
    ∧ (EncodeNowRand 1484581420 0 (fun _ => 0) 0).ulid ≠ 0 := by
  decide

/-- C15, amended: when `RAND_bytes` returns a value other than 1,
`EncodeEntropyRand` and `EncodeNowRand` throw the runtime error, and the
identifier passed to them is left with bits 79-0 cleared; its bits 127-80 are
unchanged after `EncodeEntropyRand` and hold the low 48 bits of the new
timestamp after `EncodeNowRand`.  `CreateNowRand` returns no identifier. -/
theorem C15_entropy_failure_amended (now ret : Int) (buffer : Nat → Nat) (u : Nat)
    (hret : ret ≠ 1) :
    (EncodeEntropyRand ret buffer u).thrown = some Failure.runtimeError
    ∧ bitsOf (EncodeEntropyRand ret buffer u).ulid 79 0 = 0
    ∧ bitsOf (EncodeEntropyRand ret buffer u).ulid 127 80 = bitsOf u 127 80
    ∧ (EncodeNowRand now ret buffer u).thrown = some Failure.runtimeError
    ∧ bitsOf (EncodeNowRand now ret buffer u).ulid 79 0 = 0
    ∧ ((bitsOf (EncodeNowRand now ret buffer u).ulid 127 80 : Nat) : Int)
        = (now * 1000) % 2 ^ 48
    ∧ CreateNowRand now ret buffer = Except.error Failure.runtimeError := by
  have hN : EncodeNowRand now ret buffer u
      = { ulid := ((now * 1000) % 2 ^ 48).toNat * 2 ^ 80,
          thrown := some Failure.runtimeError } := by
    unfold EncodeNowRand EncodeTimeNow
    simp only [EncodeEntropyRand_fail _ _ _ hret, EncodeTime_eq]
    have eT := toNat_emod_cast (now * 1000) (2 ^ 48) (by norm_num)
    simp only [Nat.cast_ofNat, Nat.cast_pow] at eT
    generalize ((now * 1000) % 2 ^ 48).toNat = T at *
    have hT : T < 2 ^ 48 := by omega
    have hu : u % 2 ^ 80 < 2 ^ 80 := Nat.mod_lt _ (by norm_num)
    have h : (T * 2 ^ 80 + u % 2 ^ 80) / 2 ^ 80 % 2 ^ 48 = T := by omega
    rw [h]
  have hC : CreateNowRand now ret buffer = Except.error Failure.runtimeError := by
    unfold CreateNowRand EncodeNowRand
    simp only [EncodeEntropyRand_fail _ _ _ hret]
  rw [hN, EncodeEntropyRand_fail _ _ _ hret]
  have eT := toNat_emod_cast (now * 1000) (2 ^ 48) (by norm_num)
  simp only [Nat.cast_ofNat, Nat.cast_pow] at eT
  rw [← eT]
  generalize ((now * 1000) % 2 ^ 48).toNat = T at *
  have hT : T < 2 ^ 48 := by omega
  refine ⟨rfl, ?_, ?_, rfl, ?_, ?_, hC⟩
  · simp only [bitsOf]
    norm_num
  · simp only [bitsOf]
    norm_num
  · simp only [bitsOf]
    norm_num
  · congr 1
    simp only [bitsOf]
    norm_num
    omega

/-- C15, amended, at a failing `RAND_bytes` on an identifier with all bits
set. -/
theorem C15_entropy_failure_amended_witness :
    (0 : Int) ≠ 1
    ∧ ((EncodeEntropyRand 0 (fun _ => 0) (2 ^ 128 - 1)).thrown = some Failure.runtimeError
      ∧ bitsOf (EncodeEntropyRand 0 (fun _ => 0) (2 ^ 128 - 1)).ulid 79 0 = 0
      ∧ bitsOf (EncodeEntropyRand 0 (fun _ => 0) (2 ^ 128 - 1)).ulid 127 80
          = bitsOf (2 ^ 128 - 1) 127 80
      ∧ (EncodeNowRand 1484581420 0 (fun _ => 0) (2 ^ 128 - 1)).thrown
          = some Failure.runtimeError
      ∧ bitsOf (EncodeNowRand 1484581420 0 (fun _ => 0) (2 ^ 128 - 1)).ulid 79 0 = 0
      ∧ ((bitsOf (EncodeNowRand 1484581420 0 (fun _ => 0) (2 ^ 128 - 1)).ulid 127 80 : Nat)
          : Int) = (1484581420 * 1000) % 2 ^ 48
      ∧ CreateNowRand 1484581420 0 (fun _ => 0) = Except.error Failure.runtimeError) :=
  ⟨by decide,
    C15_entropy_failure_amended 1484581420 0 (fun _ => 0) (2 ^ 128 - 1) (by decide)⟩

/-! ## Text layout -/

theorem encodingAt_eq_alphabet (j : Nat) (hj : j < 32) :
    encodingAt j = alphabet.getD j (Char.ofNat 0) := by
  interval_cases j <;> rfl

theorem encodingAt_lt8 (j : Nat) (hj : j < 8) : encodingAt j ∈ "01234567".toList := by
  interval_cases j <;> decide

theorem MarshalIndices_getD (x : Nat) (hx : x < 2 ^ 128) (i : Nat) (hi : i < 26) :
    (MarshalIndices x).getD i 0 = (x >>> (125 - 5 * i)) % 32 := by
  rw [MarshalIndices_eq, Nat.shiftRight_eq_div_pow]
  interval_cases i <;> simp only [List.getD_cons_zero, List.getD_cons_succ] <;> norm_num
  omega

theorem Marshal_getD (x i : Nat) (hi : i < 26) :
    (Marshal x).getD i (Char.ofNat 0) = encodingAt ((MarshalIndices x).getD i 0) := by
  interval_cases i <;> rfl

theorem high_digits_eq (x y : Nat) (h : x / 2 ^ 80 % 2 ^ 48 = y / 2 ^ 80 % 2 ^ 48) :
    x / 2 ^ 125 % 8 = y / 2 ^ 125 % 8
    ∧ x / 2 ^ 120 % 32 = y / 2 ^ 120 % 32
    ∧ x / 2 ^ 115 % 32 = y / 2 ^ 115 % 32
    ∧ x / 2 ^ 110 % 32 = y / 2 ^ 110 % 32
    ∧ x / 2 ^ 105 % 32 = y / 2 ^ 105 % 32
    ∧ x / 2 ^ 100 % 32 = y / 2 ^ 100 % 32
    ∧ x / 2 ^ 95 % 32 = y / 2 ^ 95 % 32
    ∧ x / 2 ^ 90 % 32 = y / 2 ^ 90 % 32
    ∧ x / 2 ^ 85 % 32 = y / 2 ^ 85 % 32
    ∧ x / 2 ^ 80 % 32 = y / 2 ^ 80 % 32 := by
  refine ⟨?_, ?_, ?_, ?_, ?_, ?_, ?_, ?_, ?_, ?_⟩ <;> omega

theorem low_digits_eq (x y : Nat) (h : x % 2 ^ 80 = y % 2 ^ 80) :
    x / 2 ^ 75 % 32 = y / 2 ^ 75 % 32
    ∧ x / 2 ^ 70 % 32 = y / 2 ^ 70 % 32
    ∧ x / 2 ^ 65 % 32 = y / 2 ^ 65 % 32
    ∧ x / 2 ^ 60 % 32 = y / 2 ^ 60 % 32
    ∧ x / 2 ^ 55 % 32 = y / 2 ^ 55 % 32
    ∧ x / 2 ^ 50 % 32 = y / 2 ^ 50 % 32
    ∧ x / 2 ^ 45 % 32 = y / 2 ^ 45 % 32
    ∧ x / 2 ^ 40 % 32 = y / 2 ^ 40 % 32
    ∧ x / 2 ^ 35 % 32 = y / 2 ^ 35 % 32
    ∧ x / 2 ^ 30 % 32 = y / 2 ^ 30 % 32
    ∧ x / 2 ^ 25 % 32 = y / 2 ^ 25 % 32
    ∧ x / 2 ^ 20 % 32 = y / 2 ^ 20 % 32
    ∧ x / 2 ^ 15 % 32 = y / 2 ^ 15 % 32
    ∧ x / 2 ^ 10 % 32 = y / 2 ^ 10 % 32
    ∧ x / 2 ^ 5 % 32 = y / 2 ^ 5 % 32
    ∧ x % 32 = y % 32 := by
  refine ⟨?_, ?_, ?_, ?_, ?_, ?_, ?_, ?_, ?_, ?_, ?_, ?_, ?_, ?_, ?_, ?_⟩ <;> omega

/-- C20: character `i` of `Marshal x` is the alphabet symbol at index
`(x >> (125 - 5 * i)) mod 32`; the first character is one of `0`..`7`;
characters 0-9 depend on bits 127-80 of `x` only and characters 10-25 on bits
79-0 only. -/
theorem C20_Marshal_base32 (x : Nat) (hx : x < 2 ^ 128) :
    (∀ i, i < 26 → (Marshal x).getD i (Char.ofNat 0)
        = alphabet.getD ((x >>> (125 - 5 * i)) % 32) (Char.ofNat 0))
    ∧ (Marshal x).getD 0 (Char.ofNat 0) ∈ "01234567".toList
    ∧ (∀ y, bitsOf x 127 80 = bitsOf y 127 80 → (Marshal x).take 10 = (Marshal y).take 10)
    ∧ (∀ y, bitsOf x 79 0 = bitsOf y 79 0 → (Marshal x).drop 10 = (Marshal y).drop 10) := by
  refine ⟨?_, ?_, ?_, ?_⟩
  · intro i hi
    rw [Marshal_getD x i hi, MarshalIndices_getD x hx i hi]
    exact encodingAt_eq_alphabet _ (Nat.mod_lt _ (by norm_num))
  · rw [Marshal_getD x 0 (by norm_num), MarshalIndices_eq]
    exact encodingAt_lt8 _ (Nat.mod_lt _ (by norm_num))
  · intro y h
    have h2 : x / 2 ^ 80 % 2 ^ 48 = y / 2 ^ 80 % 2 ^ 48 := by
      simpa [bitsOf] using h
    obtain ⟨e0, e1, e2, e3, e4, e5, e6, e7, e8, e9⟩ := high_digits_eq x y h2
    simp only [Marshal, MarshalTo, MarshalIndices_eq, List.map_cons, List.take_succ_cons,
      List.take_zero, e0, e1, e2, e3, e4, e5, e6, e7, e8, e9]
  · intro y h
    have h2 : x % 2 ^ 80 = y % 2 ^ 80 := by
      simpa [bitsOf] using h
    obtain ⟨e10, e11, e12, e13, e14, e15, e16, e17, e18, e19, e20, e21, e22, e23, e24, e25⟩ :=
      low_digits_eq x y h2
    simp only [Marshal, MarshalTo, MarshalIndices_eq, List.map_cons, List.map_nil,
      List.drop_succ_cons, List.drop_zero, e10, e11, e12, e13, e14, e15, e16, e17, e18, e19,
      e20, e21, e22, e23, e24, e25]

/-- C20 at the identifier of the test suite. -/
theorem C20_Marshal_base32_witness :
    Create 1484581420000 (fun _ => 4) < 2 ^ 128
    ∧ ((∀ i, i < 26 → (Marshal (Create 1484581420000 (fun _ => 4))).getD i (Char.ofNat 0)
          = alphabet.getD (((Create 1484581420000 (fun _ => 4)) >>> (125 - 5 * i)) % 32)
            (Char.ofNat 0))
      ∧ (Marshal (Create 1484581420000 (fun _ => 4))).getD 0 (Char.ofNat 0) ∈ "01234567".toList
      ∧ (∀ y, bitsOf (Create 1484581420000 (fun _ => 4)) 127 80 = bitsOf y 127 80 →
          (Marshal (Create 1484581420000 (fun _ => 4))).take 10 = (Marshal y).take 10)
      ∧ (∀ y, bitsOf (Create 1484581420000 (fun _ => 4)) 79 0 = bitsOf y 79 0 →
          (Marshal (Create 1484581420000 (fun _ => 4))).drop 10 = (Marshal y).drop 10)) :=
  ⟨by decide, C20_Marshal_base32 (Create 1484581420000 (fun _ => 4)) (by decide)⟩

/-! ## Strings over the alphabet -/

theorem alphabet_eq :
    alphabet =
      ['0', '1', '2', '3', '4', '5', '6', '7', '8', '9', 'A', 'B', 'C', 'D', 'E', 'F', 'G', 'H',
      'J', 'K', 'M', 'N', 'P', 'Q', 'R', 'S', 'T', 'V', 'W', 'X', 'Y', 'Z'] := by
  decide

theorem alphabetIndex_spec (c : Char) (hc : c ∈ alphabet) :
    alphabetIndex c < 32 ∧ encodingAt (alphabetIndex c) = c
    ∧ ∀ sc, decAt (charToInt sc c) = Except.ok (alphabetIndex c) := by
  rw [alphabet_eq] at hc
  simp only [List.mem_cons, List.mem_nil_iff, or_false] at hc
  rcases hc with rfl | rfl | rfl | rfl | rfl | rfl | rfl | rfl | rfl | rfl | rfl | rfl | rfl
    | rfl | rfl | rfl | rfl | rfl | rfl | rfl | rfl | rfl | rfl | rfl | rfl | rfl | rfl | rfl
    | rfl | rfl | rfl | rfl
  all_goals exact ⟨by decide, by rfl, fun sc => by cases sc <;> rfl⟩

theorem alphabetIndex_lt8 (c : Char) (hc : c ∈ "01234567".toList) : alphabetIndex c < 8 := by
  have h : "01234567".toList = ['0', '1', '2', '3', '4', '5', '6', '7'] := by decide
  rw [h] at hc
  simp only [List.mem_cons, List.mem_nil_iff, or_false] at hc
  rcases hc with rfl | rfl | rfl | rfl | rfl | rfl | rfl | rfl
  all_goals decide

theorem list_eq_getD26 (s : List Char) (d : Char) (hlen : s.length = 26) :
    s = [s.getD 0 d, s.getD 1 d, s.getD 2 d, s.getD 3 d, s.getD 4 d, s.getD 5 d, s.getD 6 d,
      s.getD 7 d, s.getD 8 d, s.getD 9 d, s.getD 10 d, s.getD 11 d, s.getD 12 d, s.getD 13 d,
      s.getD 14 d, s.getD 15 d, s.getD 16 d, s.getD 17 d, s.getD 18 d, s.getD 19 d, s.getD 20 d,
      s.getD 21 d, s.getD 22 d, s.getD 23 d, s.getD 24 d, s.getD 25 d] := by
  apply List.ext_getElem (by simp [hlen])
  intro i h1 h2
  have hi : i < 26 := by omega
  interval_cases i <;> simp [List.getD_eq_getElem, hlen]

theorem getD_mem (s : List Char) (d : Char) (k : Nat) (hk : k < s.length) : s.getD k d ∈ s := by
  rw [List.getD_eq_getElem _ _ hk]
  exact List.getElem_mem hk

theorem horner_digits
    (a0 a1 a2 a3 a4 a5 a6 a7 a8 a9 a10 a11 a12 a13 a14 a15 a16 a17 a18 a19 a20 a21 a22 a23
      a24 a25 H : Nat)
    (h0 : a0 < 8) (h1 : a1 < 32) (h2 : a2 < 32) (h3 : a3 < 32) (h4 : a4 < 32) (h5 : a5 < 32)
    (h6 : a6 < 32) (h7 : a7 < 32) (h8 : a8 < 32) (h9 : a9 < 32) (h10 : a10 < 32) (h11 : a11 < 32)
    (h12 : a12 < 32) (h13 : a13 < 32) (h14 : a14 < 32) (h15 : a15 < 32) (h16 : a16 < 32)
    (h17 : a17 < 32) (h18 : a18 < 32) (h19 : a19 < 32) (h20 : a20 < 32) (h21 : a21 < 32)
    (h22 : a22 < 32) (h23 : a23 < 32) (h24 : a24 < 32) (h25 : a25 < 32)
    (hH : H =
        (((((((((((((((((((((((((a0) * 32 + a1) * 32 + a2) * 32 + a3) * 32 + a4) * 32 +
        a5) * 32 + a6) * 32 + a7) * 32 + a8) * 32 + a9) * 32 + a10) * 32 + a11) * 32 +
        a12) * 32 + a13) * 32 + a14) * 32 + a15) * 32 + a16) * 32 + a17) * 32 + a18) * 32
        + a19) * 32 + a20) * 32 + a21) * 32 + a22) * 32 + a23) * 32 + a24) * 32 + a25) :
    H / 2 ^ 125 % 8 = a0
    ∧ H / 2 ^ 120 % 32 = a1
    ∧ H / 2 ^ 115 % 32 = a2
    ∧ H / 2 ^ 110 % 32 = a3
    ∧ H / 2 ^ 105 % 32 = a4
    ∧ H / 2 ^ 100 % 32 = a5
    ∧ H / 2 ^ 95 % 32 = a6
    ∧ H / 2 ^ 90 % 32 = a7
    ∧ H / 2 ^ 85 % 32 = a8
    ∧ H / 2 ^ 80 % 32 = a9
    ∧ H / 2 ^ 75 % 32 = a10
    ∧ H / 2 ^ 70 % 32 = a11
    ∧ H / 2 ^ 65 % 32 = a12
    ∧ H / 2 ^ 60 % 32 = a13
    ∧ H / 2 ^ 55 % 32 = a14
    ∧ H / 2 ^ 50 % 32 = a15
    ∧ H / 2 ^ 45 % 32 = a16
    ∧ H / 2 ^ 40 % 32 = a17
    ∧ H / 2 ^ 35 % 32 = a18
    ∧ H / 2 ^ 30 % 32 = a19
    ∧ H / 2 ^ 25 % 32 = a20
    ∧ H / 2 ^ 20 % 32 = a21
    ∧ H / 2 ^ 15 % 32 = a22
    ∧ H / 2 ^ 10 % 32 = a23
    ∧ H / 2 ^ 5 % 32 = a24
    ∧ H % 32 = a25 := by
  refine ⟨?_, ?_, ?_, ?_, ?_, ?_, ?_, ?_, ?_, ?_, ?_, ?_, ?_, ?_, ?_, ?_, ?_, ?_, ?_, ?_, ?_,
    ?_, ?_, ?_, ?_, ?_⟩ <;> omega

/-- A number written with 26 base-32 digits of which the first is below 8 has
these digits as its indices in `MarshalTo`. -/
theorem MarshalIndices_horner (v : Nat → Nat) (hv0 : v 0 < 8) (hv : ∀ k, k < 26 → v k < 32) :
    MarshalIndices (horner 32
      [v 0, v 1, v 2, v 3, v 4, v 5, v 6, v 7, v 8, v 9, v 10, v 11, v 12, v 13, v 14, v 15, v 16,
      v 17, v 18, v 19, v 20, v 21, v 22, v 23, v 24, v 25])
    = [v 0, v 1, v 2, v 3, v 4, v 5, v 6, v 7, v 8, v 9, v 10, v 11, v 12, v 13, v 14, v 15, v 16,
      v 17, v 18, v 19, v 20, v 21, v 22, v 23, v 24, v 25] := by
  have h1 := hv 1 (by norm_num)
  have h2 := hv 2 (by norm_num)
  have h3 := hv 3 (by norm_num)
  have h4 := hv 4 (by norm_num)
  have h5 := hv 5 (by norm_num)
  have h6 := hv 6 (by norm_num)
  have h7 := hv 7 (by norm_num)
  have h8 := hv 8 (by norm_num)
  have h9 := hv 9 (by norm_num)
  have h10 := hv 10 (by norm_num)
  have h11 := hv 11 (by norm_num)
  have h12 := hv 12 (by norm_num)
  have h13 := hv 13 (by norm_num)
  have h14 := hv 14 (by norm_num)
  have h15 := hv 15 (by norm_num)
  have h16 := hv 16 (by norm_num)
  have h17 := hv 17 (by norm_num)
  have h18 := hv 18 (by norm_num)
  have h19 := hv 19 (by norm_num)
  have h20 := hv 20 (by norm_num)
  have h21 := hv 21 (by norm_num)
  have h22 := hv 22 (by norm_num)
  have h23 := hv 23 (by norm_num)
  have h24 := hv 24 (by norm_num)
  have h25 := hv 25 (by norm_num)
  rw [MarshalIndices_eq]
  unfold horner
  simp only [List.foldl_cons, List.foldl_nil, Nat.zero_mul, Nat.zero_add]
  clear hv
  generalize v 0 = a0 at *
  generalize v 1 = a1 at *
  generalize v 2 = a2 at *
  generalize v 3 = a3 at *
  generalize v 4 = a4 at *
  generalize v 5 = a5 at *
  generalize v 6 = a6 at *
  generalize v 7 = a7 at *
  generalize v 8 = a8 at *
  generalize v 9 = a9 at *
  generalize v 10 = a10 at *
  generalize v 11 = a11 at *
  generalize v 12 = a12 at *
  generalize v 13 = a13 at *
  generalize v 14 = a14 at *
  generalize v 15 = a15 at *
  generalize v 16 = a16 at *
  generalize v 17 = a17 at *
  generalize v 18 = a18 at *
  generalize v 19 = a19 at *
  generalize v 20 = a20 at *
  generalize v 21 = a21 at *
  generalize v 22 = a22 at *
  generalize v 23 = a23 at *
  generalize v 24 = a24 at *
  generalize v 25 = a25 at *
  obtain ⟨e0, e1, e2, e3, e4, e5, e6, e7, e8, e9, e10, e11, e12, e13, e14, e15, e16, e17, e18,
    e19, e20, e21, e22, e23, e24, e25⟩ :=
    horner_digits a0 a1 a2 a3 a4 a5 a6 a7 a8 a9 a10 a11 a12 a13 a14 a15 a16 a17 a18 a19 a20
      a21 a22 a23 a24 a25 _
      hv0 h1 h2 h3 h4 h5 h6 h7 h8 h9 h10 h11 h12 h13 h14 h15 h16 h17 h18 h19 h20 h21 h22
      h23 h24 h25 rfl
  rw [e0, e1, e2, e3, e4, e5, e6, e7, e8, e9, e10, e11, e12, e13, e14, e15, e16, e17, e18, e19,
    e20, e21, e22, e23, e24, e25]

theorem horner32_lt (v : Nat → Nat) (hv0 : v 0 < 8) (hv : ∀ k, k < 26 → v k < 32) :
    horner 32
      [v 0, v 1, v 2, v 3, v 4, v 5, v 6, v 7, v 8, v 9, v 10, v 11, v 12, v 13, v 14, v 15, v 16,
      v 17, v 18, v 19, v 20, v 21, v 22, v 23, v 24, v 25] < 2 ^ 128 := by
  have h1 := hv 1 (by norm_num)
  have h2 := hv 2 (by norm_num)
  have h3 := hv 3 (by norm_num)
  have h4 := hv 4 (by norm_num)
  have h5 := hv 5 (by norm_num)
  have h6 := hv 6 (by norm_num)
  have h7 := hv 7 (by norm_num)
  have h8 := hv 8 (by norm_num)
  have h9 := hv 9 (by norm_num)
  have h10 := hv 10 (by norm_num)
  have h11 := hv 11 (by norm_num)
  have h12 := hv 12 (by norm_num)
  have h13 := hv 13 (by norm_num)
  have h14 := hv 14 (by norm_num)
  have h15 := hv 15 (by norm_num)
  have h16 := hv 16 (by norm_num)
  have h17 := hv 17 (by norm_num)
  have h18 := hv 18 (by norm_num)
  have h19 := hv 19 (by norm_num)
  have h20 := hv 20 (by norm_num)
  have h21 := hv 21 (by norm_num)
  have h22 := hv 22 (by norm_num)
  have h23 := hv 23 (by norm_num)
  have h24 := hv 24 (by norm_num)
  have h25 := hv 25 (by norm_num)
  unfold horner
  simp only [List.foldl_cons, List.foldl_nil, Nat.zero_mul, Nat.zero_add]
  clear hv
  generalize v 0 = a0 at *
  generalize v 1 = a1 at *
  generalize v 2 = a2 at *
  generalize v 3 = a3 at *
  generalize v 4 = a4 at *
  generalize v 5 = a5 at *
  generalize v 6 = a6 at *
  generalize v 7 = a7 at *
  generalize v 8 = a8 at *
  generalize v 9 = a9 at *
  generalize v 10 = a10 at *
  generalize v 11 = a11 at *
  generalize v 12 = a12 at *
  generalize v 13 = a13 at *
  generalize v 14 = a14 at *
  generalize v 15 = a15 at *
  generalize v 16 = a16 at *
  generalize v 17 = a17 at *
  generalize v 18 = a18 at *
  generalize v 19 = a19 at *
  generalize v 20 = a20 at *
  generalize v 21 = a21 at *
  generalize v 22 = a22 at *
  generalize v 23 = a23 at *
  generalize v 24 = a24 at *
  generalize v 25 = a25 at *
  omega

/-- On a string of 26 symbols of the alphabet `Unmarshal` returns the base-32
number whose digits are the alphabet indices of the characters, reduced modulo
`2 ^ 128`. -/
theorem Unmarshal_alphabet (sc : Bool) (s : List Char) (hlen : s.length = 26)
    (halpha : ∀ c ∈ s, c ∈ alphabet) :
    Unmarshal sc s = Except.ok (horner 32 (s.map alphabetIndex) % 2 ^ 128) := by
  have hd : ∀ k, k < 26 →
      decChar sc s k = Except.ok (alphabetIndex (s.getD k (Char.ofNat 0))) := by
    intro k hk
    exact (alphabetIndex_spec _ (halpha _ (getD_mem s _ k (by omega)))).2.2 sc
  have hv : ∀ k, k < 26 → alphabetIndex (s.getD k (Char.ofNat 0)) < 32 := by
    intro k hk
    exact (alphabetIndex_spec _ (halpha _ (getD_mem s _ k (by omega)))).1
  unfold Unmarshal
  rw [UnmarshalFrom_of_values sc s (fun k => alphabetIndex (s.getD k (Char.ofNat 0))) hlen hd,
    unmarshalValue_eq _ hv]
  conv_rhs => rw [list_eq_getD26 s (Char.ofNat 0) hlen]
  rfl

/-- A string of 26 symbols of the alphabet whose first character is one of
`0`..`7` is the text form of the number it denotes in base 32, which is below
`2 ^ 128`. -/
theorem Marshal_horner_canonical (s : List Char) (hlen : s.length = 26)
    (halpha : ∀ c ∈ s, c ∈ alphabet)
    (hfirst : s.getD 0 (Char.ofNat 0) ∈ "01234567".toList) :
    horner 32 (s.map alphabetIndex) < 2 ^ 128
    ∧ Marshal (horner 32 (s.map alphabetIndex)) = s := by
  have hv : ∀ k, k < 26 → alphabetIndex (s.getD k (Char.ofNat 0)) < 32 := by
    intro k hk
    exact (alphabetIndex_spec _ (halpha _ (getD_mem s _ k (by omega)))).1
  have he : ∀ k, k < 26 →
      encodingAt (alphabetIndex (s.getD k (Char.ofNat 0))) = s.getD k (Char.ofNat 0) := by
    intro k hk
    exact (alphabetIndex_spec _ (halpha _ (getD_mem s _ k (by omega)))).2.1
  have hv0 := alphabetIndex_lt8 _ hfirst
  have hs : s = List.map (fun k => s.getD k (Char.ofNat 0)) (List.range 26) :=
    list_eq_getD26 s (Char.ofNat 0) hlen
  have hmap : s.map alphabetIndex
      = List.map (fun k => alphabetIndex (s.getD k (Char.ofNat 0))) (List.range 26) := by
    conv_lhs => rw [hs]
    rw [List.map_map]
    rfl
  have hlt : horner 32
      (List.map (fun k => alphabetIndex (s.getD k (Char.ofNat 0))) (List.range 26)) < 2 ^ 128 :=
    horner32_lt (fun k => alphabetIndex (s.getD k (Char.ofNat 0))) hv0 hv
  have hI : MarshalIndices (horner 32
      (List.map (fun k => alphabetIndex (s.getD k (Char.ofNat 0))) (List.range 26)))
      = List.map (fun k => alphabetIndex (s.getD k (Char.ofNat 0))) (List.range 26) :=
    MarshalIndices_horner (fun k => alphabetIndex (s.getD k (Char.ofNat 0))) hv0 hv
  rw [hmap]
  refine ⟨hlt, ?_⟩
  unfold Marshal MarshalTo
  rw [hI, List.map_map]
  conv_rhs => rw [hs]
  apply List.map_congr_left
  intro k hk
  exact he k (List.mem_range.mp hk)

/-- C19 as stated fails: the strings `"80000000000000000000000000"` and
`"00000000000000000000000000"` are both over the alphabet and both decode to
the identifier 0, whose text form is the second one only. -/
theorem C19_unique_encoding_counterexample :
    "80000000000000000000000000".toList.length = 26
    ∧ (∀ c ∈ "80000000000000000000000000".toList, c ∈ alphabet)
    ∧ Unmarshal true "80000000000000000000000000".toList = Except.ok 0
    ∧ Unmarshal false "80000000000000000000000000".toList = Except.ok 0
    ∧ Unmarshal true "00000000000000000000000000".toList = Except.ok 0
    ∧ "80000000000000000000000000".toList ≠ Marshal 0 := by
  refine ⟨by decide, by decide, by rfl, by rfl, by rfl, by decide⟩

/-- C19, amended: for a string `s` of 26 symbols of the alphabet whose first
character is one of `0`..`7`, if `Unmarshal s` is `x` then `s` is `Marshal x`;
no two such strings decode to the same identifier. -/
theorem C19_unique_encoding_amended (sc : Bool) (s : List Char) (x : Nat)
    (hlen : s.length = 26) (halpha : ∀ c ∈ s, c ∈ alphabet)
    (hfirst : s.getD 0 (Char.ofNat 0) ∈ "01234567".toList)
    (hx : Unmarshal sc s = Except.ok x) :
    s = Marshal x := by
  obtain ⟨hlt, hM⟩ := Marshal_horner_canonical s hlen halpha hfirst
  rw [Unmarshal_alphabet sc s hlen halpha, Nat.mod_eq_of_lt hlt] at hx
  rw [← Except.ok.inj hx]
  exact hM.symm

/-- C19, amended, at the string of the test suite. -/
theorem C19_unique_encoding_amended_witness :
    ("0001C7STHC0G2081040G208104".toList.length = 26
      ∧ (∀ c ∈ "0001C7STHC0G2081040G208104".toList, c ∈ alphabet)
      ∧ "0001C7STHC0G2081040G208104".toList.getD 0 (Char.ofNat 0) ∈ "01234567".toList
      ∧ Unmarshal true "0001C7STHC0G2081040G208104".toList
          = Except.ok (Create 1484581420 (fun _ => 4)))
    ∧ "0001C7STHC0G2081040G208104".toList = Marshal (Create 1484581420 (fun _ => 4)) :=
  ⟨⟨by decide, by decide, by decide, by rfl⟩,
    C19_unique_encoding_amended true "0001C7STHC0G2081040G208104".toList
      (Create 1484581420 (fun _ => 4)) (by decide) (by decide) (by decide) (by rfl)⟩

/-! ## Characters outside the alphabet -/

theorem Marshal_mem_alphabet (x : Nat) (c : Char) (hc : c ∈ Marshal x) : c ∈ alphabet := by
  simp only [Marshal, MarshalTo, List.mem_map] at hc
  obtain ⟨i, hi, rfl⟩ := hc
  exact encodingAt_mem_alphabet i (MarshalIndices_lt x i hi)

/-- Where every character of a 26-character input indexes the table `dec`
inside its 256 entries, `Unmarshal` returns an identifier whatever the
characters are, and the text form of that identifier is not the input when
the input has a character outside the alphabet. -/
theorem Unmarshal_no_validation (sc : Bool) (s : List Char) (hlen : s.length = 26)
    (hin : ∀ c ∈ s, 0 ≤ charToInt sc c ∧ charToInt sc c < 256) :
    ∃ x, Unmarshal sc s = Except.ok x
      ∧ ((∃ c ∈ s, c ∉ alphabet) → Marshal x ≠ s) := by
  have hd : ∀ k, k < 26 → decChar sc s k
      = Except.ok (dec.getD (charToInt sc (s.getD k (Char.ofNat 0))).toNat 0xFF) := by
    intro k hk
    unfold decChar decAt
    rw [if_pos (hin _ (getD_mem s _ k (by omega)))]
  refine ⟨_, UnmarshalFrom_of_values sc s _ hlen hd, ?_⟩
  rintro ⟨c, hc, hna⟩ hM
  rw [← hM] at hc
  exact hna (Marshal_mem_alphabet _ c hc)

/-- In a build without bounds checking `UnmarshalFrom` on 26 characters returns
the accumulator of the 26 bytes that the reads of `dec` give. -/
theorem UnmarshalFromUnchecked_eq (mem : Int → Nat) (sc : Bool) (s : List Char)
    (hl : s.length = 26) :
    UnmarshalFromUnchecked mem sc s = Except.ok (unmarshalValue (decCharUnchecked mem sc s)) := by
  unfold UnmarshalFromUnchecked
  rw [if_neg (by simp [STR_SIZE, hl])]
  rfl

set_option maxRecDepth 100000 in
/-- Every entry of `dec` is a byte. -/
theorem dec_getD_lt (n : Nat) : dec.getD n 0xFF < 256 := by
  by_cases h : n < 256
  · have hall : ∀ m, m < 256 → dec.getD m 0xFF < 256 := by decide
    exact hall n h
  · have hlen : dec.length = 256 := rfl
    rw [List.getD_eq_default _ _ (by omega)]
    norm_num

set_option maxRecDepth 100000 in
/-- The entries of `dec` at the codes of the characters outside the alphabet
are the sentinel `0xFF`. -/
theorem dec_sentinel : ∀ n, n < 256 → Char.ofNat n ∉ alphabet → dec.getD n 0xFF = 0xFF := by
  decide

/-- A read of `dec` in a build without bounds checking gives a byte. -/
theorem decAtUnchecked_lt (mem : Int → Nat) (i : Int) : decAtUnchecked mem i < 256 := by
  unfold decAtUnchecked
  split
  · exact dec_getD_lt _
  · exact u8_lt _

/-- Inside the table the two readings of `dec[i]` agree. -/
theorem decAt_eq_unchecked (mem : Int → Nat) (i : Int) (h : 0 ≤ i ∧ i < 256) :
    decAt i = Except.ok (decAtUnchecked mem i) := by
  unfold decAt decAtUnchecked
  rw [if_pos h, if_pos h]

/-- The accumulator of 26 bytes is below `2 ^ 128`. -/
theorem unmarshalValue_lt (v : Nat → Nat) (hv : ∀ k, v k < 256) :
    unmarshalValue v < 2 ^ 128 := by
  unfold unmarshalValue
  have h24 := hv 24
  have h25 := hv 25
  refine Nat.or_lt_two_pow (shl128_lt _ _) (Nat.or_lt_two_pow ?_ (by omega))
  rw [Nat.shiftLeft_eq]
  omega

/-- C14: in a build without bounds checking, `Unmarshal` on any 26-character
input returns an identifier (the only failure of the function, the `assert` on
the size, does not occur), whatever the characters are; the result is that of
`Unmarshal` wherever every character indexes the table; a byte outside the
alphabet that indexes the table reads the sentinel `0xFF`, which is used as a
value; and when the input has a character outside the alphabet, the text form
of the result differs from the input. -/
theorem C14_no_character_validation (mem : Int → Nat) (sc : Bool) (s : List Char)
    (hlen : s.length = 26) :
    ∃ x, UnmarshalUnchecked mem sc s = Except.ok x
      ∧ x < 2 ^ 128
      ∧ ((∀ c ∈ s, 0 ≤ charToInt sc c ∧ charToInt sc c < 256) →
          Unmarshal sc s = Except.ok x)
      ∧ (∀ c ∈ s, c ∉ alphabet → c.toNat < 256 → 0 ≤ charToInt sc c →
          decAtUnchecked mem (charToInt sc c) = 0xFF)
      ∧ ((∃ c ∈ s, c ∉ alphabet) → Marshal x ≠ s) := by
  refine ⟨_, UnmarshalFromUnchecked_eq mem sc s hlen, ?_, ?_, ?_, ?_⟩
  · exact unmarshalValue_lt _ (fun k => decAtUnchecked_lt mem _)
  · intro hin
    refine UnmarshalFrom_of_values sc s _ hlen ?_
    intro k hk
    exact decAt_eq_unchecked mem _ (hin _ (getD_mem s _ k (by omega)))
  · intro c _ hna hbyte hnn
    have hi : charToInt sc c = (c.toNat : Int) := by
      unfold charToInt at hnn ⊢
      split
      · rw [if_pos (by assumption)] at hnn
        omega
      · rfl
    have hc : Char.ofNat c.toNat = c := Char.ofNat_toNat c
    unfold decAtUnchecked
    rw [hi, if_pos (by omega), Int.toNat_ofNat]
    exact dec_sentinel c.toNat hbyte (by rw [hc]; exact hna)
  · rintro ⟨c, hc, hna⟩ hM
    rw [← hM] at hc
    exact hna (Marshal_mem_alphabet _ c hc)

/-- C14 at the string of 25 characters `0` and the byte `0xE9`, on a platform
with signed `char`, where the read `dec[-23]` finds the byte 116: the result
is the identifier 116, whose text form ends in `3M`; and at the string that
ends in the letter `U`, which reads the sentinel and gives 255. -/
theorem C14_no_character_validation_witness :
    ("0000000000000000000000000".toList ++ [Char.ofNat 0xE9]).length = 26
    ∧ (∃ x, UnmarshalUnchecked (fun _ => 116) true
          ("0000000000000000000000000".toList ++ [Char.ofNat 0xE9]) = Except.ok x
      ∧ x < 2 ^ 128
      ∧ ((∀ c ∈ "0000000000000000000000000".toList ++ [Char.ofNat 0xE9],
            0 ≤ charToInt true c ∧ charToInt true c < 256) →
          Unmarshal true ("0000000000000000000000000".toList ++ [Char.ofNat 0xE9])
            = Except.ok x)
      ∧ (∀ c ∈ "0000000000000000000000000".toList ++ [Char.ofNat 0xE9],
          c ∉ alphabet → c.toNat < 256 → 0 ≤ charToInt true c →
          decAtUnchecked (fun _ => 116) (charToInt true c) = 0xFF)
      ∧ ((∃ c ∈ "0000000000000000000000000".toList ++ [Char.ofNat 0xE9], c ∉ alphabet) →
          Marshal x ≠ "0000000000000000000000000".toList ++ [Char.ofNat 0xE9]))
    ∧ UnmarshalUnchecked (fun _ => 116) true
          ("0000000000000000000000000".toList ++ [Char.ofNat 0xE9]) = Except.ok 116
    ∧ Marshal 116 = "0000000000000000000000003M".toList
    ∧ UnmarshalUnchecked (fun _ => 116) true "0000000000000000000000000U".toList
        = Except.ok 255
    ∧ Marshal 255 = "0000000000000000000000007Z".toList :=
  ⟨by decide,
    C14_no_character_validation (fun _ => 116) true
      ("0000000000000000000000000".toList ++ [Char.ofNat 0xE9]) (by decide),
    by rfl, by decide, by rfl, by decide⟩

/-! ## Positional decoding -/

/-- The number that 26 digits denote in base 32, most significant first, is
the sum of the digits weighted by the powers of 32. -/
theorem horner32_eq_sum (v : Nat → Nat) :
    horner 32 (List.map v (List.range 26))
      = Finset.sum (Finset.range 26) (fun i => v i * 32 ^ (25 - i)) := by
  have h : horner 32 (List.map v (List.range 26))
      = horner 32 [v 0, v 1, v 2, v 3, v 4, v 5, v 6, v 7, v 8, v 9, v 10, v 11, v 12, v 13,
          v 14, v 15, v 16, v 17, v 18, v 19, v 20, v 21, v 22, v 23, v 24, v 25] := rfl
  rw [h]
  unfold horner
  simp only [List.foldl_cons, List.foldl_nil, Nat.zero_mul, Nat.zero_add, Finset.sum_range_succ,
    Finset.sum_range_zero]
  ring

/-- C21: on a string `s` of 26 symbols of the alphabet, `Unmarshal` returns the
sum of `v i * 32 ^ (25 - i)` over `i = 0..25`, reduced modulo `2 ^ 128`, where
`v i` is the alphabet index of character `i` of `s`. -/
theorem C21_Unmarshal_positional (sc : Bool) (s : List Char) (hlen : s.length = 26)
    (halpha : ∀ c ∈ s, c ∈ alphabet) :
    Unmarshal sc s
      = Except.ok (Finset.sum (Finset.range 26)
          (fun i => alphabetIndex (s.getD i (Char.ofNat 0)) * 32 ^ (25 - i)) % 2 ^ 128) := by
  have hs : s = List.map (fun k => s.getD k (Char.ofNat 0)) (List.range 26) :=
    list_eq_getD26 s (Char.ofNat 0) hlen
  have hmap : s.map alphabetIndex
      = List.map (fun k => alphabetIndex (s.getD k (Char.ofNat 0))) (List.range 26) := by
    conv_lhs => rw [hs]
    rw [List.map_map]
    rfl
  rw [Unmarshal_alphabet sc s hlen halpha, hmap, horner32_eq_sum]

/-- C21 at the string of `TEST(Unmarshal, 1)`: the sum is the identifier
created at millisecond timestamp 1484581420 with every entropy byte 4. -/
theorem C21_Unmarshal_positional_witness :
    ("0001C7STHC0G2081040G208104".toList.length = 26
      ∧ (∀ c ∈ "0001C7STHC0G2081040G208104".toList, c ∈ alphabet))
    ∧ Unmarshal true "0001C7STHC0G2081040G208104".toList
      = Except.ok (Finset.sum (Finset.range 26)
          (fun i => alphabetIndex ("0001C7STHC0G2081040G208104".toList.getD i (Char.ofNat 0))
            * 32 ^ (25 - i)) % 2 ^ 128)
    ∧ Unmarshal true "0001C7STHC0G2081040G208104".toList
      = Except.ok (Create 1484581420 (fun _ => 4)) :=
  ⟨⟨by decide, by decide⟩,
    C21_Unmarshal_positional true "0001C7STHC0G2081040G208104".toList (by decide) (by decide),
    by rfl⟩

/-- C22: for a string `s` of 26 symbols of the alphabet whose first character
is one of `0`..`7`, `Unmarshal s` is an identifier and `Marshal` of it is
`s`. -/
theorem C22_reverse_round_trip (sc : Bool) (s : List Char) (hlen : s.length = 26)
    (halpha : ∀ c ∈ s, c ∈ alphabet)
    (hfirst : s.getD 0 (Char.ofNat 0) ∈ "01234567".toList) :
    ∃ x, Unmarshal sc s = Except.ok x ∧ x < 2 ^ 128 ∧ Marshal x = s := by
  obtain ⟨hlt, hM⟩ := Marshal_horner_canonical s hlen halpha hfirst
  refine ⟨horner 32 (s.map alphabetIndex), ?_, hlt, hM⟩
  rw [Unmarshal_alphabet sc s hlen halpha, Nat.mod_eq_of_lt hlt]

/-- C22 at the largest canonical string. -/
theorem C22_reverse_round_trip_witness :
    ("7ZZZZZZZZZZZZZZZZZZZZZZZZZ".toList.length = 26
      ∧ (∀ c ∈ "7ZZZZZZZZZZZZZZZZZZZZZZZZZ".toList, c ∈ alphabet)
      ∧ "7ZZZZZZZZZZZZZZZZZZZZZZZZZ".toList.getD 0 (Char.ofNat 0) ∈ "01234567".toList)
    ∧ ∃ x, Unmarshal false "7ZZZZZZZZZZZZZZZZZZZZZZZZZ".toList = Except.ok x ∧ x < 2 ^ 128
        ∧ Marshal x = "7ZZZZZZZZZZZZZZZZZZZZZZZZZ".toList :=
  ⟨⟨by decide, by decide, by decide⟩,
    C22_reverse_round_trip false "7ZZZZZZZZZZZZZZZZZZZZZZZZZ".toList
      (by decide) (by decide) (by decide)⟩

/-! ## Indices into the decode table -/

/-- With unsigned `char` every byte is an index inside the table `dec`. -/
theorem charToInt_unsigned_in_table (c : Char) (hc : c.toNat < 256) :
    0 ≤ charToInt false c ∧ charToInt false c < 256 := by
  simp only [charToInt, Bool.false_and, Bool.false_eq_true, ↓reduceIte]
  omega

/-- With signed `char` the bytes `0x00`..`0x7F` are indices inside the table
`dec`. -/
theorem charToInt_signed_ascii (c : Char) (hc : c.toNat < 128) :
    0 ≤ charToInt true c ∧ charToInt true c < 256 := by
  have h : ¬ 128 ≤ c.toNat := by omega
  simp only [charToInt, Bool.true_and, decide_eq_true_eq, h, ↓reduceIte]
  omega

/-- With signed `char` every byte `0x80`..`0xFF` is a negative index, and the
read of `dec` at it leaves the table. -/
theorem charToInt_signed_high (c : Char) (h1 : 128 ≤ c.toNat) (h2 : c.toNat < 256) :
    charToInt true c < 0 ∧ decAt (charToInt true c) = Except.error Failure.outOfRange := by
  have h : charToInt true c = (c.toNat : Int) - 256 := by
    simp only [charToInt, Bool.true_and, decide_eq_true_eq, h1, ↓reduceIte]
  have hneg : charToInt true c < 0 := by omega
  refine ⟨hneg, ?_⟩
  unfold decAt
  rw [if_neg (by omega)]

/-- C23 at a failing input: on a platform with signed `char`, for the 26-byte
string that starts with the byte `0xFF` and goes on with 25 characters `0`,
the index `int(str[0])` is `-1`, not in `0..255`; the read `dec[-1]` is outside
the table and `UnmarshalFrom` returns no identifier. -/
theorem C23_index_below_table :
    (Char.ofNat 0xFF :: "0000000000000000000000000".toList).length = 26
    ∧ (∀ c ∈ Char.ofNat 0xFF :: "0000000000000000000000000".toList, c.toNat < 256)
    ∧ charToInt true ((Char.ofNat 0xFF :: "0000000000000000000000000".toList).getD 0
        (Char.ofNat 0)) = -1
    ∧ decChar true (Char.ofNat 0xFF :: "0000000000000000000000000".toList) 0
        = Except.error Failure.outOfRange
    ∧ UnmarshalFrom true (Char.ofNat 0xFF :: "0000000000000000000000000".toList)
        = Except.error Failure.outOfRange := by
  refine ⟨by decide, by decide, by decide, by rfl, by rfl⟩

end ulid
